import Mathlib

/-!
# Verification of the rholive turn-orchestration core

A shallow embedding of the rholive audio/video pipeline, checked against
its natural-language specification.  The embedding covers:

* the wire-message JSON model and the turn FSM (`src/simple_turn_fsm.rs`),
* the audio ring buffer, frame classifier, boundary FSM, clause
  validators and segment emitter (`src/audio_seg.rs`).

Conventions of the embedding:

* Rust `Instant` values are modelled as natural numbers of milliseconds;
  every function that calls `Instant::now()` receives the current time as
  an explicit `now : Nat` parameter.
* Channel sends (`mpsc`, `broadcast`) are modelled by accumulating the
  sent values in a list inside the state, or by returning the list of
  sent values; channel receives are modelled by passing the pending
  items as an explicit list argument.
* Machine integers (`u64`, `usize`) are modelled as `Nat`; `i16` samples
  are modelled as `Int` (only copied, never computed with, so no overflow
  arises); `f32` scores are modelled as exact rationals (the claims
  proved below never depend on rounding of the score).
* Rust saturating subtraction coincides with `Nat` subtraction.
-/

set_option maxRecDepth 8000

namespace RhoLive

/-! ## JSON values

A minimal JSON model: only the constructors the turn FSM actually
produces (`serde_json::json!` objects with string leaves). -/

inductive Json where
  | str : String → Json
  | obj : List (String × Json) → Json

/-- Standard base64 alphabet, as used by `base64::engine::general_purpose::STANDARD`. -/
def base64Alphabet : String :=
  "ABCDEFGHIJKLMNOPQRSTUVWXYZabcdefghijklmnopqrstuvwxyz0123456789+/"

def b64Char (n : Nat) : Char := base64Alphabet.data.getD n 'A'

/-- Standard base64 encoding of a byte sequence (bytes as `Nat` < 256),
modelling `base64::engine::general_purpose::STANDARD.encode`. -/
def base64Encode : List Nat → String
  | [] => ""
  | [b0] =>
    String.mk [b64Char (b0 / 4), b64Char (b0 % 4 * 16), '=', '=']
  | [b0, b1] =>
    String.mk [b64Char (b0 / 4), b64Char (b0 % 4 * 16 + b1 / 16), b64Char (b1 % 16 * 4), '=']
  | b0 :: b1 :: b2 :: rest =>
    String.mk [b64Char (b0 / 4), b64Char (b0 % 4 * 16 + b1 / 16),
               b64Char (b1 % 16 * 4 + b2 / 64), b64Char (b2 % 64)] ++ base64Encode rest

/-! ## Wire messages (`SimpleTurnFsm::send_*`, src/simple_turn_fsm.rs:358-397) -/

/-- `json!({ "activityStart": {} })` -/
def activityStartMsg : Json := .obj [("activityStart", .obj [])]

/-- `json!({ "activityEnd": {} })` -/
def activityEndMsg : Json := .obj [("activityEnd", .obj [])]

/-- `json!({ "audio": { "data": <b64>, "mimeType": "audio/pcm;rate=16000" } })` -/
def audioMsg (pcm : List Nat) : Json :=
  .obj [("audio", .obj [("data", .str (base64Encode pcm)),
                        ("mimeType", .str "audio/pcm;rate=16000")])]

/-- `json!({ "video": { "data": <b64>, "mimeType": "image/jpeg" } })` -/
def videoMsg (jpeg : List Nat) : Json :=
  .obj [("video", .obj [("data", .str (base64Encode jpeg)),
                        ("mimeType", .str "image/jpeg")])]

/-- `json!({ "setup": { "realtimeInputConfig": { "activityHandling": mode } } })` -/
def setupMsg (mode : String) : Json :=
  .obj [("setup", .obj [("realtimeInputConfig", .obj [("activityHandling", .str mode)])])]

/-- The classification of an outbound wire message into the five legal
shapes of the protocol (the two `setup` modes distinguished). -/
inductive Kind where
  | actStart
  | actEnd
  | audio
  | video
  | setupInterrupt
  | setupRestore
deriving DecidableEq, Repr

/-- Shape classifier for outbound JSON: returns `some k` exactly when the
message is one of the five legal wire shapes (a single-key object with
the exact payload layout of §4.6 of the spec). -/
def kindOf : Json → Option Kind
  | .obj [("activityStart", .obj [])] => some .actStart
  | .obj [("activityEnd", .obj [])] => some .actEnd
  | .obj [("audio", .obj [("data", .str _), ("mimeType", .str "audio/pcm;rate=16000")])] =>
    some .audio
  | .obj [("video", .obj [("data", .str _), ("mimeType", .str "image/jpeg")])] =>
    some .video
  | .obj [("setup", .obj [("realtimeInputConfig",
      .obj [("activityHandling", .str "START_OF_ACTIVITY_INTERRUPTS")])])] =>
    some .setupInterrupt
  | .obj [("setup", .obj [("realtimeInputConfig",
      .obj [("activityHandling", .str "NO_INTERRUPTION")])])] =>
    some .setupRestore
  | _ => none

/-- A message is a legal wire message iff it classifies. -/
def isWireShape (m : Json) : Bool := (kindOf m).isSome

@[simp] theorem kindOf_activityStartMsg : kindOf activityStartMsg = some .actStart := rfl
@[simp] theorem kindOf_activityEndMsg : kindOf activityEndMsg = some .actEnd := rfl
@[simp] theorem kindOf_audioMsg (pcm : List Nat) : kindOf (audioMsg pcm) = some .audio := rfl
@[simp] theorem kindOf_videoMsg (jpeg : List Nat) : kindOf (videoMsg jpeg) = some .video := rfl
@[simp] theorem kindOf_setupInterrupt :
    kindOf (setupMsg "START_OF_ACTIVITY_INTERRUPTS") = some .setupInterrupt := rfl
@[simp] theorem kindOf_setupRestore :
    kindOf (setupMsg "NO_INTERRUPTION") = some .setupRestore := rfl

/-! ## The turn FSM (`SimpleTurnFsm`, src/simple_turn_fsm.rs) -/

/-- `const FRAMES_PER_TURN: usize = 2` -/
def FRAMES_PER_TURN : Nat := 2

/-- `const FORCE_FRAME_TIMEOUT_MS: u64 = 50` -/
def FORCE_FRAME_TIMEOUT_MS : Nat := 50

/-- `enum Event` of src/simple_turn_fsm.rs. -/
inductive Event where
  | speechStart
  | audioChunk (pcm : List Nat)
  | speechEnd
  | frame (jpeg : List Nat) (hash : Nat)
  | responseReceived

/-- `enum State` of src/simple_turn_fsm.rs. -/
inductive State where
  | idle
  | frameBatch
  | audioTurn
  | waitingForForcedFrame
deriving DecidableEq, Repr

/-- `struct SimpleTurnFsm`.  `outbound` accumulates every pushed wire
message (the real code's `drain_messages` hands them on in order, so the
full dispatch history is the concatenation of the drains); likewise
`force_requests` accumulates the `ForceCaptureRequest`s sent on
`media_tx`. -/
structure SimpleTurnFsm where
  state : State
  last_frame_hash : Nat
  frame_batch : List (List Nat)
  video_sent_in_audio_turn : Bool
  last_frame_data : Option (List Nat)
  force_frame_wait_start : Option Nat
  outbound : List Json
  turn_end_times : List (Nat × Bool)
  recent_latencies : List (Nat × Nat)
  max_latencies : Nat
  last_turn_was_video : Bool
  pending_turn_types : List Bool
  need_activity_reset : Bool
  force_requests : List String

namespace SimpleTurnFsm

/-- `SimpleTurnFsm::new` (src/simple_turn_fsm.rs:92-109). -/
def new : SimpleTurnFsm where
  state := .idle
  last_frame_hash := 0
  frame_batch := []
  video_sent_in_audio_turn := false
  last_frame_data := none
  force_frame_wait_start := none
  outbound := []
  turn_end_times := []
  recent_latencies := []
  max_latencies := 100
  last_turn_was_video := false
  pending_turn_types := []
  need_activity_reset := false
  force_requests := []

def send_activity_start (s : SimpleTurnFsm) : SimpleTurnFsm :=
  { s with outbound := s.outbound ++ [activityStartMsg] }

def send_activity_end (s : SimpleTurnFsm) : SimpleTurnFsm :=
  { s with outbound := s.outbound ++ [activityEndMsg] }

def send_audio (s : SimpleTurnFsm) (pcm : List Nat) : SimpleTurnFsm :=
  { s with outbound := s.outbound ++ [audioMsg pcm] }

def send_video (s : SimpleTurnFsm) (jpeg : List Nat) : SimpleTurnFsm :=
  { s with outbound := s.outbound ++ [videoMsg jpeg] }

def send_activity_handling_update (s : SimpleTurnFsm) (mode : String) : SimpleTurnFsm :=
  { s with outbound := s.outbound ++ [setupMsg mode] }

/-- `SimpleTurnFsm::on_event` (src/simple_turn_fsm.rs:112-320).  A match
arm whose `if hash != self.last_frame_hash` guard fails falls through to
the final `_ => {}` arm, i.e. leaves the state untouched. -/
def on_event (s : SimpleTurnFsm) (now : Nat) (e : Event) : SimpleTurnFsm :=
  match s.state, e with
  -- ===== IDLE STATE =====
  | .idle, .frame jpeg hash =>
    if hash ≠ s.last_frame_hash then
      let s1 := { s with last_frame_data := some jpeg }
      if FRAMES_PER_TURN > 1 then
        { s1 with frame_batch := s1.frame_batch ++ [jpeg], last_frame_hash := hash,
                  state := .frameBatch }
      else
        let s2 := send_activity_end (send_video (send_activity_start s1) jpeg)
        { s2 with last_frame_hash := hash, last_turn_was_video := true,
                  turn_end_times := s2.turn_end_times ++ [(now, true)],
                  pending_turn_types := s2.pending_turn_types ++ [true] }
    else s
  | .idle, .speechStart =>
    let pending_video := s.pending_turn_types.any (fun is_video => is_video)
    let s1 :=
      if pending_video then
        { send_activity_handling_update s "START_OF_ACTIVITY_INTERRUPTS" with
          need_activity_reset := true }
      else s
    let s2 := send_activity_start s1
    { s2 with last_turn_was_video := false, video_sent_in_audio_turn := false,
              state := .audioTurn }
  -- ===== FRAME BATCH STATE =====
  | .frameBatch, .frame jpeg hash =>
    if hash ≠ s.last_frame_hash then
      let s1 := { s with last_frame_data := some jpeg,
                         frame_batch := s.frame_batch ++ [jpeg], last_frame_hash := hash }
      if s1.frame_batch.length ≥ FRAMES_PER_TURN then
        let s2 := send_activity_start s1
        let frames := s2.frame_batch
        let s3 := frames.foldl send_video { s2 with frame_batch := [] }
        let s4 := send_activity_end s3
        { s4 with state := .idle, last_turn_was_video := true,
                  turn_end_times := s4.turn_end_times ++ [(now, true)],
                  pending_turn_types := s4.pending_turn_types ++ [true] }
      else s1
    else s
  | .frameBatch, .speechStart =>
    let s1 :=
      if s.frame_batch ≠ [] then
        let t1 := send_activity_start s
        let frames := t1.frame_batch
        let t2 := frames.foldl send_video { t1 with frame_batch := [] }
        let t3 := send_activity_end t2
        { t3 with last_turn_was_video := true,
                  turn_end_times := t3.turn_end_times ++ [(now, true)],
                  pending_turn_types := t3.pending_turn_types ++ [true] }
      else s
    let pending_video := s1.pending_turn_types.any (fun is_video => is_video)
    let s2 :=
      if pending_video then
        { send_activity_handling_update s1 "START_OF_ACTIVITY_INTERRUPTS" with
          need_activity_reset := true }
      else s1
    let s3 := send_activity_start s2
    { s3 with last_turn_was_video := false, video_sent_in_audio_turn := false,
              state := .audioTurn }
  -- ===== AUDIO TURN STATE =====
  | .audioTurn, .audioChunk pcm => send_audio s pcm
  | .audioTurn, .frame jpeg hash =>
    if hash ≠ s.last_frame_hash then
      let s1 := send_video { s with last_frame_data := some jpeg } jpeg
      { s1 with last_frame_hash := hash, video_sent_in_audio_turn := true }
    else s
  | .audioTurn, .speechEnd =>
    { s with force_requests := s.force_requests ++ ["SimpleTurnFsm::SpeechEnd"],
             force_frame_wait_start := some now, state := .waitingForForcedFrame }
  -- ===== WAITING FOR FORCED FRAME STATE =====
  | .waitingForForcedFrame, .frame jpeg hash =>
    let s1 := send_video { s with last_frame_data := some jpeg } jpeg
    let s2 := { s1 with last_frame_hash := hash }
    let s3 :=
      if s2.need_activity_reset then
        { send_activity_handling_update s2 "NO_INTERRUPTION" with need_activity_reset := false }
      else s2
    let s4 := send_activity_end s3
    { s4 with state := .idle, force_frame_wait_start := none, last_turn_was_video := false,
              turn_end_times := s4.turn_end_times ++ [(now, false)],
              pending_turn_types := s4.pending_turn_types ++ [false] }
  | .waitingForForcedFrame, .speechStart =>
    let s1 :=
      match s.last_frame_data with
      | some frame_data => send_video s frame_data
      | none => s
    let s2 :=
      if s1.need_activity_reset then
        { send_activity_handling_update s1 "NO_INTERRUPTION" with need_activity_reset := false }
      else s1
    let s3 := send_activity_end s2
    let s4 := { s3 with last_turn_was_video := false,
                        turn_end_times := s3.turn_end_times ++ [(now, false)],
                        pending_turn_types := s3.pending_turn_types ++ [false] }
    let s5 := send_activity_start s4
    { s5 with last_turn_was_video := false, video_sent_in_audio_turn := false,
              state := .audioTurn }
  -- Response received - calculate latency
  | _, .responseReceived =>
    match s.turn_end_times with
    | [] => s
    | (turn_end_time, _) :: rest =>
      let latency_ms := now - turn_end_time
      let rl := s.recent_latencies ++ [(now, latency_ms)]
      let rl := if rl.length > s.max_latencies then rl.drop 1 else rl
      { s with turn_end_times := rest, pending_turn_types := s.pending_turn_types.drop 1,
               recent_latencies := rl }
  -- Ignore duplicates and invalid transitions
  | _, _ => s

/-- `SimpleTurnFsm::check_force_frame_timeout` (src/simple_turn_fsm.rs:328-354). -/
def check_force_frame_timeout (s : SimpleTurnFsm) (now : Nat) : SimpleTurnFsm :=
  match s.state, s.force_frame_wait_start with
  | .waitingForForcedFrame, some start =>
    if now - start > FORCE_FRAME_TIMEOUT_MS then
      let s1 :=
        match s.last_frame_data with
        | some frame_data => send_video s frame_data
        | none => s
      let s2 :=
        if s1.need_activity_reset then
          { send_activity_handling_update s1 "NO_INTERRUPTION" with
            need_activity_reset := false }
        else s1
      let s3 := send_activity_end s2
      { s3 with state := .idle, force_frame_wait_start := none, last_turn_was_video := false,
                turn_end_times := s3.turn_end_times ++ [(now, false)],
                pending_turn_types := s3.pending_turn_types ++ [false] }
    else s
  | _, _ => s

end SimpleTurnFsm

/-- One input to the FSM driver: either an event delivered at time `now`
or a periodic timeout tick at time `now`. -/
inductive Input where
  | ev (now : Nat) (e : Event)
  | tick (now : Nat)

def stepFsm (s : SimpleTurnFsm) : Input → SimpleTurnFsm
  | .ev now e => s.on_event now e
  | .tick now => s.check_force_frame_timeout now

/-- Run the turn FSM from `SimpleTurnFsm::new` over a list of inputs. -/
def runFsm (inputs : List Input) : SimpleTurnFsm :=
  inputs.foldl stepFsm SimpleTurnFsm.new

/-- `pending_video` check of the SpeechStart handlers:
`self.pending_turn_types.iter().any(|is_video| *is_video)`. -/
def pendingVideo (s : SimpleTurnFsm) : Bool :=
  s.pending_turn_types.any (fun is_video => is_video)

/-! ## A monitor automaton for the outbound wire stream

`Mon` is a fine-grained monitor for the per-turn grammar of the wire
stream.  Between turns it is `outside`; a mode-switch `setup` announces
the next turn as a "switched" audio turn (`outsideSw`, which must be
followed immediately by `activityStart`); inside a turn it records
whether the turn was opened switched and whether the restoring `setup`
has been seen.  Rejection (`none`) means the stream violates the
turn grammar. -/

inductive Mon where
  | outside
  | outsideSw
  | insideN
  | insideSw
  | insideSwR
deriving DecidableEq, Repr

/-- Monitor transition on a message kind. -/
def monStepK : Mon → Kind → Option Mon
  | .outside, .actStart => some .insideN
  | .outside, .setupInterrupt => some .outsideSw
  | .outsideSw, .actStart => some .insideSw
  | .insideN, .audio => some .insideN
  | .insideN, .video => some .insideN
  | .insideN, .actEnd => some .outside
  | .insideSw, .audio => some .insideSw
  | .insideSw, .video => some .insideSw
  | .insideSw, .setupRestore => some .insideSwR
  | .insideSwR, .audio => some .insideSwR
  | .insideSwR, .video => some .insideSwR
  | .insideSwR, .actEnd => some .outside
  | _, _ => none

/-- Monitor transition on a raw JSON message: unclassifiable messages are
rejected. -/
def monStep (m : Mon) (msg : Json) : Option Mon :=
  match kindOf msg with
  | none => none
  | some k => monStepK m k

/-- Run the monitor over a message list. -/
def monRun : Mon → List Json → Option Mon
  | m, [] => some m
  | m, msg :: rest =>
    match monStep m msg with
    | none => none
    | some m' => monRun m' rest

@[simp] theorem monRun_nil (m : Mon) : monRun m [] = some m := rfl

@[simp] theorem monRun_cons (m : Mon) (msg : Json) (rest : List Json) :
    monRun m (msg :: rest) =
      match monStep m msg with
      | none => none
      | some m' => monRun m' rest := rfl

theorem monRun_append (l1 l2 : List Json) :
    ∀ m : Mon, monRun m (l1 ++ l2) =
      match monRun m l1 with
      | none => none
      | some m' => monRun m' l2 := by
  induction l1 with
  | nil => intro m; simp
  | cons msg rest ih =>
    intro m
    simp only [List.cons_append, monRun_cons]
    cases monStep m msg with
    | none => rfl
    | some m' => exact ih m'

/-- Every message accepted by the monitor is classifiable (hence a legal
wire shape). -/
theorem monRun_classifies (l : List Json) :
    ∀ m m' : Mon, monRun m l = some m' → ∀ x ∈ l, isWireShape x = true := by
  induction l with
  | nil => intro m m' _ x hx; cases hx
  | cons msg rest ih =>
    intro m m' h x hx
    simp only [monRun_cons] at h
    cases hk : monStep m msg with
    | none => rw [hk] at h; cases h
    | some m1 =>
      rw [hk] at h
      rcases List.mem_cons.mp hx with rfl | hx'
      · unfold monStep at hk
        unfold isWireShape
        cases h2 : kindOf x with
        | none => rw [h2] at hk; cases hk
        | some k => rfl
      · exact ih m1 m' h x hx'

/-- The monitor state associated to an FSM state and reset flag: outside
a turn in `Idle`/`FrameBatch`, inside a turn otherwise, and in a
"switched" turn exactly when a mode reset is still owed. -/
def monOfSN : State → Bool → Mon
  | .idle, _ => .outside
  | .frameBatch, _ => .outside
  | .audioTurn, nar => if nar then .insideSw else .insideN
  | .waitingForForcedFrame, nar => if nar then .insideSw else .insideN

def monOf (s : SimpleTurnFsm) : Mon := monOfSN s.state s.need_activity_reset

/-- The reachability invariant of the turn FSM: the accumulated outbound
stream is accepted by the monitor, ending in the monitor state matching
the FSM state, and no mode reset is owed while no turn is open. -/
def FsmInv (s : SimpleTurnFsm) : Prop :=
  monRun .outside s.outbound = some (monOf s) ∧
  ((s.state = .idle ∨ s.state = .frameBatch) → s.need_activity_reset = false)

theorem fsmInv_new : FsmInv SimpleTurnFsm.new := ⟨rfl, fun _ => rfl⟩

/-- `send_video` only touches `outbound`; folding it over a frame list
appends the corresponding `video` messages. -/
theorem foldl_send_video (frames : List (List Nat)) :
    ∀ s : SimpleTurnFsm, frames.foldl SimpleTurnFsm.send_video s =
      { s with outbound := s.outbound ++ frames.map videoMsg } := by
  induction frames with
  | nil => intro s; simp
  | cons f rest ih =>
    intro s
    simp only [List.foldl_cons, List.map_cons]
    rw [ih]
    simp [SimpleTurnFsm.send_video]

/-- Videos keep the monitor in `insideN`. -/
theorem monRun_videos_insideN (frames : List (List Nat)) :
    monRun .insideN (frames.map videoMsg) = some .insideN := by
  induction frames with
  | nil => rfl
  | cons f rest ih => simpa [monStep, monStepK] using ih

/-- Chaining: if the monitor accepts the prefix and the suffix from the
reached state, it accepts the concatenation. -/
theorem monRun_append_of {ob Δ : List Json} {m0 m m' : Mon}
    (h1 : monRun m0 ob = some m) (h2 : monRun m Δ = some m') :
    monRun m0 (ob ++ Δ) = some m' := by
  rw [monRun_append, h1]
  exact h2

/-- Opening a turn and emitting the batched videos: monitor bookkeeping
for the flush paths of the turn FSM. -/
theorem monRun_flush (fb : List (List Nat)) (rest : List Json) (m' : Mon)
    (h : monRun .insideN rest = some m') :
    monRun .outside (activityStartMsg :: (fb.map videoMsg ++ rest)) = some m' := by
  simp only [monRun_cons, monStep, kindOf_activityStartMsg, monStepK]
  exact monRun_append_of (monRun_videos_insideN fb) h

/-- The turn FSM preserves the monitor invariant on every input. -/
theorem fsmInv_step (s : SimpleTurnFsm) (i : Input) (h : FsmInv s) : FsmInv (stepFsm s i) := by
  obtain ⟨hmon, hres⟩ := h
  obtain ⟨st, lfh, fb, vs, lfd, ffws, ob, tet, rl, ml, ltv, ptt, nar, fr⟩ := s
  simp only [FsmInv, monOf] at hmon hres ⊢
  cases i with
  | tick now =>
    cases st with
    | idle => exact ⟨hmon, hres⟩
    | frameBatch => exact ⟨hmon, hres⟩
    | audioTurn => exact ⟨hmon, hres⟩
    | waitingForForcedFrame =>
      cases ffws with
      | none => exact ⟨hmon, hres⟩
      | some start =>
        by_cases hnow : now - start > FORCE_FRAME_TIMEOUT_MS
        · cases nar with
          | true =>
            simp only [monOfSN, if_true] at hmon
            cases lfd with
            | none =>
              simp [stepFsm, SimpleTurnFsm.check_force_frame_timeout, hnow,
                SimpleTurnFsm.send_activity_end, SimpleTurnFsm.send_activity_handling_update,
                monOfSN]
              exact monRun_append_of hmon (by simp [monRun, monStep, monStepK])
            | some d =>
              simp [stepFsm, SimpleTurnFsm.check_force_frame_timeout, hnow,
                SimpleTurnFsm.send_activity_end, SimpleTurnFsm.send_activity_handling_update,
                SimpleTurnFsm.send_video, monOfSN]
              exact monRun_append_of hmon (by simp [monRun, monStep, monStepK])
          | false =>
            simp only [monOfSN, Bool.false_eq_true, if_false] at hmon
            cases lfd with
            | none =>
              simp [stepFsm, SimpleTurnFsm.check_force_frame_timeout, hnow,
                SimpleTurnFsm.send_activity_end, monOfSN]
              exact monRun_append_of hmon (by simp [monRun, monStep, monStepK])
            | some d =>
              simp [stepFsm, SimpleTurnFsm.check_force_frame_timeout, hnow,
                SimpleTurnFsm.send_activity_end, SimpleTurnFsm.send_video, monOfSN]
              exact monRun_append_of hmon (by simp [monRun, monStep, monStepK])
        · simp only [stepFsm, SimpleTurnFsm.check_force_frame_timeout, hnow, if_false]
          exact ⟨hmon, hres⟩
  | ev now e =>
    cases st with
    | idle =>
      have hnar : nar = false := hres (Or.inl rfl)
      subst hnar
      simp only [monOfSN] at hmon
      cases e with
      | speechStart =>
        by_cases hp : ptt.any (fun is_video => is_video) = true
        · simp [stepFsm, SimpleTurnFsm.on_event, hp, SimpleTurnFsm.send_activity_start,
            SimpleTurnFsm.send_activity_handling_update, monOfSN]
          exact monRun_append_of hmon (by simp [monRun, monStep, monStepK])
        · simp only [Bool.not_eq_true] at hp
          simp [stepFsm, SimpleTurnFsm.on_event, hp, SimpleTurnFsm.send_activity_start,
            monOfSN]
          exact monRun_append_of hmon (by simp [monRun, monStep, monStepK])
      | audioChunk pcm =>
        simp [stepFsm, SimpleTurnFsm.on_event, monOfSN]
        exact hmon
      | speechEnd =>
        simp [stepFsm, SimpleTurnFsm.on_event, monOfSN]
        exact hmon
      | responseReceived =>
        cases tet with
        | nil =>
          simp [stepFsm, SimpleTurnFsm.on_event, monOfSN]
          exact hmon
        | cons hd rest =>
          obtain ⟨t, wasv⟩ := hd
          simp [stepFsm, SimpleTurnFsm.on_event, monOfSN]
          exact hmon
      | frame jpeg hash =>
        by_cases hh : hash = lfh
        · simp [stepFsm, SimpleTurnFsm.on_event, hh, monOfSN]
          exact hmon
        · simp [stepFsm, SimpleTurnFsm.on_event, hh, FRAMES_PER_TURN, monOfSN]
          exact hmon
    | frameBatch =>
      have hnar : nar = false := hres (Or.inr rfl)
      subst hnar
      simp only [monOfSN] at hmon
      cases e with
      | speechStart =>
        by_cases hfb : fb = []
        · subst hfb
          by_cases hp : ptt.any (fun is_video => is_video) = true
          · simp [stepFsm, SimpleTurnFsm.on_event, hp, SimpleTurnFsm.send_activity_start,
              SimpleTurnFsm.send_activity_handling_update, monOfSN]
            exact monRun_append_of hmon (by simp [monRun, monStep, monStepK])
          · simp only [Bool.not_eq_true] at hp
            simp [stepFsm, SimpleTurnFsm.on_event, hp, SimpleTurnFsm.send_activity_start,
              monOfSN]
            exact monRun_append_of hmon (by simp [monRun, monStep, monStepK])
        · simp [stepFsm, SimpleTurnFsm.on_event, hfb, SimpleTurnFsm.send_activity_start,
            SimpleTurnFsm.send_activity_end, SimpleTurnFsm.send_activity_handling_update,
            SimpleTurnFsm.send_video, foldl_send_video, monOfSN]
          refine monRun_append_of hmon (monRun_flush fb _ _ ?_)
          simp [monRun, monStep, monStepK]
      | audioChunk pcm =>
        simp [stepFsm, SimpleTurnFsm.on_event, monOfSN]
        exact hmon
      | speechEnd =>
        simp [stepFsm, SimpleTurnFsm.on_event, monOfSN]
        exact hmon
      | responseReceived =>
        cases tet with
        | nil =>
          simp [stepFsm, SimpleTurnFsm.on_event, monOfSN]
          exact hmon
        | cons hd rest =>
          obtain ⟨t, wasv⟩ := hd
          simp [stepFsm, SimpleTurnFsm.on_event, monOfSN]
          exact hmon
      | frame jpeg hash =>
        by_cases hh : hash = lfh
        · simp [stepFsm, SimpleTurnFsm.on_event, hh, monOfSN]
          exact hmon
        · by_cases hlen : fb.length + 1 ≥ FRAMES_PER_TURN
          · simp [stepFsm, SimpleTurnFsm.on_event, hh, hlen,
              SimpleTurnFsm.send_activity_start, SimpleTurnFsm.send_activity_end,
              SimpleTurnFsm.send_video, foldl_send_video, monOfSN]
            refine monRun_append_of hmon (monRun_flush fb _ _ ?_)
            simp [monRun, monStep, monStepK]
          · simp [stepFsm, SimpleTurnFsm.on_event, hh, hlen, monOfSN]
            exact hmon
    | audioTurn =>
      cases e with
      | speechStart =>
        simp [stepFsm, SimpleTurnFsm.on_event, monOfSN]
        exact hmon
      | audioChunk pcm =>
        simp [stepFsm, SimpleTurnFsm.on_event, SimpleTurnFsm.send_audio, monOfSN]
        cases nar with
        | true =>
          simp only [monOfSN, if_true] at hmon
          simp only [if_true]
          exact monRun_append_of hmon (by simp [monRun, monStep, monStepK])
        | false =>
          simp only [monOfSN, Bool.false_eq_true, if_false] at hmon
          simp only [Bool.false_eq_true, if_false]
          exact monRun_append_of hmon (by simp [monRun, monStep, monStepK])
      | speechEnd =>
        simp [stepFsm, SimpleTurnFsm.on_event, monOfSN]
        exact hmon
      | responseReceived =>
        cases tet with
        | nil =>
          simp [stepFsm, SimpleTurnFsm.on_event, monOfSN]
          exact hmon
        | cons hd rest =>
          obtain ⟨t, wasv⟩ := hd
          simp [stepFsm, SimpleTurnFsm.on_event, monOfSN]
          exact hmon
      | frame jpeg hash =>
        by_cases hh : hash = lfh
        · simp [stepFsm, SimpleTurnFsm.on_event, hh, monOfSN]
          exact hmon
        · simp [stepFsm, SimpleTurnFsm.on_event, hh, SimpleTurnFsm.send_video, monOfSN]
          cases nar with
          | true =>
            simp only [monOfSN, if_true] at hmon
            simp only [if_true]
            exact monRun_append_of hmon (by simp [monRun, monStep, monStepK])
          | false =>
            simp only [monOfSN, Bool.false_eq_true, if_false] at hmon
            simp only [Bool.false_eq_true, if_false]
            exact monRun_append_of hmon (by simp [monRun, monStep, monStepK])
    | waitingForForcedFrame =>
      cases e with
      | speechStart =>
        cases nar with
        | true =>
          simp only [monOfSN, if_true] at hmon
          cases lfd with
          | none =>
            simp [stepFsm, SimpleTurnFsm.on_event, SimpleTurnFsm.send_activity_start,
              SimpleTurnFsm.send_activity_end, SimpleTurnFsm.send_activity_handling_update,
              monOfSN]
            exact monRun_append_of hmon (by simp [monRun, monStep, monStepK])
          | some d =>
            simp [stepFsm, SimpleTurnFsm.on_event, SimpleTurnFsm.send_activity_start,
              SimpleTurnFsm.send_activity_end, SimpleTurnFsm.send_activity_handling_update,
              SimpleTurnFsm.send_video, monOfSN]
            exact monRun_append_of hmon (by simp [monRun, monStep, monStepK])
        | false =>
          simp only [monOfSN, Bool.false_eq_true, if_false] at hmon
          cases lfd with
          | none =>
            simp [stepFsm, SimpleTurnFsm.on_event, SimpleTurnFsm.send_activity_start,
              SimpleTurnFsm.send_activity_end, monOfSN]
            exact monRun_append_of hmon (by simp [monRun, monStep, monStepK])
          | some d =>
            simp [stepFsm, SimpleTurnFsm.on_event, SimpleTurnFsm.send_activity_start,
              SimpleTurnFsm.send_activity_end, SimpleTurnFsm.send_video, monOfSN]
            exact monRun_append_of hmon (by simp [monRun, monStep, monStepK])
      | audioChunk pcm =>
        simp [stepFsm, SimpleTurnFsm.on_event, monOfSN]
        exact hmon
      | speechEnd =>
        simp [stepFsm, SimpleTurnFsm.on_event, monOfSN]
        exact hmon
      | responseReceived =>
        cases tet with
        | nil =>
          simp [stepFsm, SimpleTurnFsm.on_event, monOfSN]
          exact hmon
        | cons hd rest =>
          obtain ⟨t, wasv⟩ := hd
          simp [stepFsm, SimpleTurnFsm.on_event, monOfSN]
          exact hmon
      | frame jpeg hash =>
        cases nar with
        | true =>
          simp only [monOfSN, if_true] at hmon
          simp [stepFsm, SimpleTurnFsm.on_event, SimpleTurnFsm.send_video,
            SimpleTurnFsm.send_activity_end, SimpleTurnFsm.send_activity_handling_update,
            monOfSN]
          exact monRun_append_of hmon (by simp [monRun, monStep, monStepK])
        | false =>
          simp only [monOfSN, Bool.false_eq_true, if_false] at hmon
          simp [stepFsm, SimpleTurnFsm.on_event, SimpleTurnFsm.send_video,
            SimpleTurnFsm.send_activity_end, monOfSN]
          exact monRun_append_of hmon (by simp [monRun, monStep, monStepK])


/-- Every reachable turn-FSM state satisfies the monitor invariant. -/
theorem fsmInv_run (inputs : List Input) : FsmInv (runFsm inputs) := by
  have : ∀ s, FsmInv s → FsmInv (inputs.foldl stepFsm s) := by
    induction inputs with
    | nil => intro s hs; exact hs
    | cons i rest ih =>
      intro s hs
      exact ih _ (fsmInv_step s i hs)
  exact this _ fsmInv_new

/-! ## The coarse per-turn grammar

The regular structure claimed by the spec:
`(setup* activityStart (audio|video|setup)* activityEnd)*`, with a
possibly unfinished final turn.  `TurnPhase.outside` means no turn is
open. -/

inductive TurnPhase where
  | outside
  | inside
deriving DecidableEq, Repr

def coarseStepK : TurnPhase → Kind → Option TurnPhase
  | .outside, .actStart => some .inside
  | .outside, .setupInterrupt => some .outside
  | .outside, .setupRestore => some .outside
  | .inside, .audio => some .inside
  | .inside, .video => some .inside
  | .inside, .setupInterrupt => some .inside
  | .inside, .setupRestore => some .inside
  | .inside, .actEnd => some .outside
  | _, _ => none

def coarseStep (p : TurnPhase) (msg : Json) : Option TurnPhase :=
  match kindOf msg with
  | none => none
  | some k => coarseStepK p k

def coarseRun : TurnPhase → List Json → Option TurnPhase
  | p, [] => some p
  | p, msg :: rest =>
    match coarseStep p msg with
    | none => none
    | some p' => coarseRun p' rest

/-- Projection of the fine monitor onto the coarse turn phase. -/
def projMon : Mon → TurnPhase
  | .outside => .outside
  | .outsideSw => .outside
  | .insideN => .inside
  | .insideSw => .inside
  | .insideSwR => .inside

/-- Single-step simulation: the coarse grammar automaton simulates the
fine monitor. -/
theorem coarseStepK_sim (m m' : Mon) (k : Kind) (h : monStepK m k = some m') :
    coarseStepK (projMon m) k = some (projMon m') := by
  cases m <;> cases k <;> simp only [monStepK] at h <;> cases h <;> rfl

/-- Run-level simulation. -/
theorem coarseRun_sim (l : List Json) :
    ∀ m m' : Mon, monRun m l = some m' → coarseRun (projMon m) l = some (projMon m') := by
  induction l with
  | nil =>
    intro m m' h
    cases h
    rfl
  | cons msg rest ih =>
    intro m m' h
    rw [monRun_cons] at h
    cases hk : monStep m msg with
    | none => rw [hk] at h; cases h
    | some m1 =>
      rw [hk] at h
      replace h : monRun m1 rest = some m' := h
      have hc : coarseStep (projMon m) msg = some (projMon m1) := by
        unfold monStep at hk
        unfold coarseStep
        cases h2 : kindOf msg with
        | none => rw [h2] at hk; cases hk
        | some k =>
          rw [h2] at hk
          replace hk : monStepK m k = some m1 := hk
          exact coarseStepK_sim m m1 k hk
      unfold coarseRun
      rw [hc]
      exact ih m1 m' h

/-- **C1.**  For every input sequence fed to the turn FSM (`on_event`
events and `check_force_frame_timeout` ticks), every outbound message is
one of the five legal JSON shapes — a single-key object, so media bytes
and activity markers never share a message — and the full outbound
stream is accepted by the per-turn grammar
`(setup* activityStart (audio|video|setup)* activityEnd)*` with at most
one unfinished trailing turn: inside a turn only `audio`/`video`/`setup`
appear before the closing `activityEnd`, and a new `activityStart` can
only appear after the previous turn's `activityEnd`, so marker pairs of
two turns never interleave. -/
theorem c1_wire_shapes_and_turn_grammar (inputs : List Input) :
    (runFsm inputs).outbound.all isWireShape = true ∧
    coarseRun .outside (runFsm inputs).outbound =
      some (projMon (monOf (runFsm inputs))) := by
  obtain ⟨hmon, -⟩ := fsmInv_run inputs
  constructor
  · rw [List.all_eq_true]
    exact fun x hx => monRun_classifies _ _ _ hmon x hx
  · exact coarseRun_sim _ _ _ hmon

/-- Closed witness for C1 at a concrete run: a frame batch turn followed
by an interrupting audio turn. -/
def c1Inputs : List Input :=
  [.ev 0 (.frame [1] 1), .ev 0 (.frame [2] 2), .ev 1 .speechStart,
   .ev 2 (.audioChunk [7]), .ev 3 .speechEnd, .tick 60]

theorem c1_witness :
    (runFsm c1Inputs).outbound.all isWireShape = true ∧
    coarseRun .outside (runFsm c1Inputs).outbound =
      some (projMon (monOf (runFsm c1Inputs))) :=
  c1_wire_shapes_and_turn_grammar c1Inputs

/-! ## C7: duplicate frames -/

/-- A one-frame prefix: puts the FSM in `FrameBatch` with
`last_frame_hash = 5` and `last_frame_data = some [1]`. -/
def c7dupPrefix : List Input := [.ev 0 (.frame [1] 5)]

/-- **C7 counterexample.**  The claim says a duplicate `Frame` (same
hash) refreshes the stored last-frame bytes to the duplicate's bytes.
In the code the failed `hash != last_frame_hash` guard falls through to
the catch-all arm, which changes nothing: after a duplicate frame with
bytes `[2]` the stored bytes are still `[1]`, not `[2]`. -/
theorem c7_counterexample :
    (runFsm c7dupPrefix).last_frame_hash = 5 ∧
    ((runFsm c7dupPrefix).on_event 1 (.frame [2] 5)).last_frame_data = some [1] ∧
    ((runFsm c7dupPrefix).on_event 1 (.frame [2] 5)).last_frame_data ≠ some [2] := by
  refine ⟨rfl, rfl, by decide⟩

/-- **C7 (amended).**  A `Frame` event delivered in `Idle`, `FrameBatch`
or `AudioTurn` whose hash equals `last_frame_hash` is ignored outright:
no outbound message is produced and the state — including the stored
last-frame bytes, which are *not* refreshed — is completely unchanged. -/
theorem c7_amended_duplicate_frame_ignored (s : SimpleTurnFsm) (now : Nat)
    (jpeg : List Nat) (hash : Nat)
    (hst : s.state = .idle ∨ s.state = .frameBatch ∨ s.state = .audioTurn)
    (hdup : hash = s.last_frame_hash) :
    s.on_event now (.frame jpeg hash) = s := by
  obtain ⟨st, lfh, fb, vs, lfd, ffws, ob, tet, rl, ml, ltv, ptt, nar, fr⟩ := s
  simp only at hst hdup
  subst hdup
  rcases hst with h | h | h <;> subst h <;> simp [SimpleTurnFsm.on_event]

theorem c7_amended_witness :
    (runFsm c7dupPrefix).on_event 1 (.frame [2] 5) = runFsm c7dupPrefix :=
  c7_amended_duplicate_frame_ignored (runFsm c7dupPrefix) 1 [2] 5
    (Or.inr (Or.inl rfl)) rfl

/-! ## C10: initial hash zero -/

/-- **C10.**  `SimpleTurnFsm::new` initializes `last_frame_hash` to `0`,
so the very first `Frame` whose content hash happens to be `0` fails the
`hash != last_frame_hash` guard in `Idle`: it is treated as a duplicate,
produces no outbound message and starts no frame batch — the FSM is left
exactly in its initial state. -/
theorem c10_first_zero_hash_frame_dropped (now : Nat) (jpeg : List Nat) :
    SimpleTurnFsm.new.on_event now (.frame jpeg 0) = SimpleTurnFsm.new := by
  simp [SimpleTurnFsm.on_event, SimpleTurnFsm.new]

theorem c10_witness :
    SimpleTurnFsm.new.on_event 3 (.frame [9] 0) = SimpleTurnFsm.new :=
  c10_first_zero_hash_frame_dropped 3 [9]

/-! ## C8: mode switch around a preempted video turn -/

/-- A full frame batch (one pending video turn, never answered) followed
by an interrupting audio turn that is itself preempted: when the second
`SpeechStart` arrives the FSM is in `WaitingForForcedFrame` and the video
turn is still pending. -/
def c8prefix : List Input :=
  [.ev 0 (.frame [1] 1), .ev 0 (.frame [2] 2), .ev 1 .speechStart, .ev 2 .speechEnd]

def c8inputs : List Input := c8prefix ++ [.ev 3 .speechStart, .ev 4 (.audioChunk [7])]

/-- **C8 counterexample.**  In this run a video turn is pending
(unanswered) when the second `SpeechStart` arrives, yet the audio turn it
opens contains an `audio` message with *no* interrupting `setup` between
its `activityStart` and that `audio` (messages of the final turn — after
the last `activityStart`, i.e. from position 9 on — are exactly
`[actStart, audio]`): the `WaitingForForcedFrame + SpeechStart` arm never
checks `pending_turn_types`, so no mode switch is emitted for the new
turn, contradicting the claim's "exactly one". -/
theorem c8_counterexample :
    pendingVideo (runFsm c8prefix) = true ∧
    (runFsm c8prefix).state = State.waitingForForcedFrame ∧
    (runFsm c8inputs).outbound.map kindOf =
      [some .actStart, some .video, some .video, some .actEnd,
       some .setupInterrupt, some .actStart,
       some .video, some .setupRestore, some .actEnd,
       some .actStart, some .audio] ∧
    ((runFsm c8inputs).outbound.map kindOf).drop 9 = [some .actStart, some .audio] ∧
    some Kind.setupInterrupt ∉ ((runFsm c8inputs).outbound.map kindOf).drop 9 := by
  refine ⟨rfl, rfl, by decide, by decide, by decide⟩

/-- **C8 (amended).**  The mode-switch discipline holds for the
`SpeechStart` paths that consult `pending_turn_types`, i.e. when speech
starts in `Idle` or `FrameBatch`: exactly one interrupting `setup` is
emitted, immediately before the new turn's `activityStart` (hence before
any of its `audio`), and the owed-reset flag is raised; the restoring
`setup` is then emitted exactly once inside that turn, before its
`activityEnd` (this is the content of the monitor acceptance, last
conjunct: an interrupting `setup` is immediately followed by
`activityStart`, a turn opened that way contains exactly one restoring
`setup`, placed before its `activityEnd`, and no other turn contains
one).  By contrast, when `SpeechStart` arrives in
`WaitingForForcedFrame`, the new turn is opened with *no* interrupting
`setup` even if a video turn is still pending (third conjunct). -/
theorem c8_amended_mode_switch :
    (∀ (s : SimpleTurnFsm) (now : Nat), s.state = .idle → pendingVideo s = true →
      (s.on_event now .speechStart).outbound =
        s.outbound ++ [setupMsg "START_OF_ACTIVITY_INTERRUPTS", activityStartMsg] ∧
      (s.on_event now .speechStart).need_activity_reset = true) ∧
    (∀ (s : SimpleTurnFsm) (now : Nat), s.state = .frameBatch → pendingVideo s = true →
      (s.on_event now .speechStart).outbound =
        s.outbound ++
          (if s.frame_batch = [] then []
           else activityStartMsg :: (s.frame_batch.map videoMsg ++ [activityEndMsg])) ++
          [setupMsg "START_OF_ACTIVITY_INTERRUPTS", activityStartMsg] ∧
      (s.on_event now .speechStart).need_activity_reset = true) ∧
    (∀ (s : SimpleTurnFsm) (now : Nat), s.state = .waitingForForcedFrame →
      (s.on_event now .speechStart).outbound =
        s.outbound ++
          (match s.last_frame_data with | some d => [videoMsg d] | none => []) ++
          (if s.need_activity_reset then [setupMsg "NO_INTERRUPTION"] else []) ++
          [activityEndMsg, activityStartMsg]) ∧
    (∀ inputs : List Input, (monRun .outside (runFsm inputs).outbound).isSome = true) := by
  refine ⟨?_, ?_, ?_, ?_⟩
  · intro s now hst hp
    obtain ⟨st, lfh, fb, vs, lfd, ffws, ob, tet, rl, ml, ltv, ptt, nar, fr⟩ := s
    simp only at hst
    subst hst
    simp only [pendingVideo] at hp
    simp [SimpleTurnFsm.on_event, hp, SimpleTurnFsm.send_activity_start,
      SimpleTurnFsm.send_activity_handling_update]
  · intro s now hst hp
    obtain ⟨st, lfh, fb, vs, lfd, ffws, ob, tet, rl, ml, ltv, ptt, nar, fr⟩ := s
    simp only at hst hp ⊢
    subst hst
    simp only [pendingVideo] at hp
    by_cases hfb : fb = []
    · subst hfb
      simp [SimpleTurnFsm.on_event, hp, SimpleTurnFsm.send_activity_start,
        SimpleTurnFsm.send_activity_handling_update]
    · have hany : (ptt ++ [true]).any (fun is_video => is_video) = true := by simp
      simp [SimpleTurnFsm.on_event, hfb, hany, SimpleTurnFsm.send_activity_start,
        SimpleTurnFsm.send_activity_end, SimpleTurnFsm.send_activity_handling_update,
        SimpleTurnFsm.send_video, foldl_send_video]
  · intro s now hst
    obtain ⟨st, lfh, fb, vs, lfd, ffws, ob, tet, rl, ml, ltv, ptt, nar, fr⟩ := s
    simp only at hst ⊢
    subst hst
    cases lfd with
    | none =>
      cases nar <;>
        simp [SimpleTurnFsm.on_event, SimpleTurnFsm.send_activity_start,
          SimpleTurnFsm.send_activity_end, SimpleTurnFsm.send_activity_handling_update]
    | some d =>
      cases nar <;>
        simp [SimpleTurnFsm.on_event, SimpleTurnFsm.send_activity_start,
          SimpleTurnFsm.send_activity_end, SimpleTurnFsm.send_activity_handling_update,
          SimpleTurnFsm.send_video]
  · intro inputs
    obtain ⟨hmon, -⟩ := fsmInv_run inputs
    rw [hmon]
    rfl

/-- Prefix leaving the FSM `Idle` with a pending (unanswered) video
turn. -/
def c8vidPrefix : List Input := [.ev 0 (.frame [1] 1), .ev 0 (.frame [2] 2)]

theorem c8_amended_witness :
    ((runFsm c8vidPrefix).on_event 5 .speechStart).outbound =
      (runFsm c8vidPrefix).outbound ++
        [setupMsg "START_OF_ACTIVITY_INTERRUPTS", activityStartMsg] ∧
    ((runFsm c8vidPrefix).on_event 5 .speechStart).need_activity_reset = true :=
  c8_amended_mode_switch.1 (runFsm c8vidPrefix) 5 rfl rfl

/-! ## C9: the forced-frame wait is bounded -/

/-- **C9.**  Entering `WaitingForForcedFrame` (only via
`AudioTurn + SpeechEnd`) sends exactly one `ForceCaptureRequest` and
records the wait start (first conjunct, a full-state equality).  The FSM
leaves the state whether or not a frame arrives: on any frame (second
conjunct), on a new `SpeechStart` (third conjunct), and otherwise on the
first timeout check past the deadline `force_frame_timeout_ms = 50`
(fifth conjunct): that check emits the cached last-frame bytes as a
`video` message if any exist (plus the owed mode-restoring `setup`, if
any), then `activityEnd`, and returns to `Idle`.  A check at or before
the deadline changes nothing (fourth conjunct). -/
theorem c9_forced_frame_wait_bounded (s : SimpleTurnFsm) (now t : Nat) :
    (s.state = .audioTurn →
      s.on_event now .speechEnd =
        { s with force_requests := s.force_requests ++ ["SimpleTurnFsm::SpeechEnd"],
                 force_frame_wait_start := some now,
                 state := .waitingForForcedFrame }) ∧
    (∀ jpeg hash, s.state = .waitingForForcedFrame →
      (s.on_event now (.frame jpeg hash)).state = .idle) ∧
    (s.state = .waitingForForcedFrame →
      (s.on_event now .speechStart).state = .audioTurn) ∧
    (s.state = .waitingForForcedFrame → s.force_frame_wait_start = some t →
      ¬(now - t > FORCE_FRAME_TIMEOUT_MS) → s.check_force_frame_timeout now = s) ∧
    (s.state = .waitingForForcedFrame → s.force_frame_wait_start = some t →
      now - t > FORCE_FRAME_TIMEOUT_MS →
      (s.check_force_frame_timeout now).state = .idle ∧
      (s.check_force_frame_timeout now).outbound =
        s.outbound ++
          (match s.last_frame_data with | some d => [videoMsg d] | none => []) ++
          (if s.need_activity_reset then [setupMsg "NO_INTERRUPTION"] else []) ++
          [activityEndMsg]) := by
  obtain ⟨st, lfh, fb, vs, lfd, ffws, ob, tet, rl, ml, ltv, ptt, nar, fr⟩ := s
  refine ⟨?_, ?_, ?_, ?_, ?_⟩
  · intro hst
    simp only at hst
    subst hst
    simp [SimpleTurnFsm.on_event]
  · intro jpeg hash hst
    simp only at hst
    subst hst
    simp [SimpleTurnFsm.on_event]
  · intro hst
    simp only at hst
    subst hst
    cases lfd <;> cases nar <;> simp [SimpleTurnFsm.on_event,
      SimpleTurnFsm.send_activity_start, SimpleTurnFsm.send_activity_end,
      SimpleTurnFsm.send_activity_handling_update, SimpleTurnFsm.send_video]
  · intro hst hffws hnow
    simp only at hst hffws
    subst hst hffws
    simp [SimpleTurnFsm.check_force_frame_timeout, hnow]
  · intro hst hffws hnow
    simp only at hst hffws
    subst hst hffws
    cases lfd <;> cases nar <;> simp [SimpleTurnFsm.check_force_frame_timeout, hnow,
      SimpleTurnFsm.send_activity_end, SimpleTurnFsm.send_activity_handling_update,
      SimpleTurnFsm.send_video]

/-- A run ending in `WaitingForForcedFrame` with wait time `0` and no
cached frame. -/
def c9run : List Input := [.ev 0 .speechStart, .ev 0 .speechEnd]

theorem c9_witness :
    ((runFsm c9run).check_force_frame_timeout 51).state = State.idle ∧
    ((runFsm c9run).check_force_frame_timeout 51).outbound =
      (runFsm c9run).outbound ++
        (match (runFsm c9run).last_frame_data with
         | some d => [videoMsg d] | none => []) ++
        (if (runFsm c9run).need_activity_reset then [setupMsg "NO_INTERRUPTION"] else []) ++
        [activityEndMsg] :=
  (c9_forced_frame_wait_bounded (runFsm c9run) 51 0).2.2.2.2 rfl rfl (by decide)

/-! ## The audio ring buffer (`AudioRingBuffer`, src/audio_seg.rs:76-146)

The Rust buffer is a fixed vector written through a rotating write
position; reads address samples by their global index.  The single
writer/reader interleavings the claims speak about are sequential, so
the buffer is modelled as a plain record.  (For `capacity = 0` the Rust
code would panic on `% 0`; the claims assume a ring of capacity `C`, and
the theorems below take `0 < C`.) -/

structure AudioRingBuffer where
  buffer : List Int
  capacity : Nat
  write_pos : Nat
  global_idx : Nat

namespace AudioRingBuffer

/-- `AudioRingBuffer::new`. -/
def new (capacity : Nat) : AudioRingBuffer :=
  { buffer := List.replicate capacity 0, capacity := capacity, write_pos := 0, global_idx := 0 }

end AudioRingBuffer

/-- The per-sample write loop of `push_frame`: sample `i` goes to cell
`(write_pos + i) % capacity` (here `pos` carries `write_pos + i`). -/
def writeSamples (cap : Nat) : List Int → Nat → List Int → List Int
  | buf, _, [] => buf
  | buf, pos, s :: rest => writeSamples cap (buf.set (pos % cap) s) (pos + 1) rest

namespace AudioRingBuffer

/-- `AudioRingBuffer::push_frame` (src/audio_seg.rs:95-115): append the
samples at the rotating write position, advance `write_pos` and
`global_idx`, return the global index of the first appended sample. -/
def push_frame (r : AudioRingBuffer) (samples : List Int) : Nat × AudioRingBuffer :=
  (r.global_idx,
   { buffer := writeSamples r.capacity r.buffer r.write_pos samples,
     capacity := r.capacity,
     write_pos := (r.write_pos + samples.length) % r.capacity,
     global_idx := r.global_idx + samples.length })

/-- `AudioRingBuffer::get_range` (src/audio_seg.rs:119-140). -/
def get_range (r : AudioRingBuffer) (a b : Nat) : Option (List Int) :=
  let current_global := r.global_idx
  let available_start := current_global - r.capacity
  if a < available_start ∨ b > current_global then none
  else
    some ((List.range' a (b - a)).map (fun global_idx =>
      r.buffer.getD ((r.write_pos + r.capacity - (current_global - global_idx)) % r.capacity) 0))

/-- `AudioRingBuffer::current_global_idx`. -/
def current_global_idx (r : AudioRingBuffer) : Nat := r.global_idx

end AudioRingBuffer

/-- Folding a write sequence into the ring, as the pipeline does. -/
def ringRun (C : Nat) (frames : List (List Int)) : AudioRingBuffer :=
  frames.foldl (fun r f => (r.push_frame f).2) (AudioRingBuffer.new C)

/-- The canonical ring holding the last `C` samples of `stream`. -/
def canonRing (C : Nat) (stream : List Int) : AudioRingBuffer :=
  { buffer := writeSamples C (List.replicate C 0) 0 stream,
    capacity := C, write_pos := stream.length % C, global_idx := stream.length }

theorem writeSamples_length (cap : Nat) (l : List Int) :
    ∀ buf pos, (writeSamples cap buf pos l).length = buf.length := by
  induction l with
  | nil => intro buf pos; rfl
  | cons s rest ih =>
    intro buf pos
    simp [writeSamples, ih]

theorem writeSamples_append (cap : Nat) (l1 l2 : List Int) :
    ∀ buf pos, writeSamples cap buf pos (l1 ++ l2) =
      writeSamples cap (writeSamples cap buf pos l1) (pos + l1.length) l2 := by
  induction l1 with
  | nil => intro buf pos; simp [writeSamples]
  | cons s rest ih =>
    intro buf pos
    simp only [List.cons_append, writeSamples, List.length_cons]
    show writeSamples cap (buf.set (pos % cap) s) (pos + 1) (rest ++ l2) = _
    rw [ih]
    have h : pos + 1 + rest.length = pos + (rest.length + 1) := by omega
    rw [h]

theorem writeSamples_congr (cap : Nat) (l : List Int) :
    ∀ buf pos pos', pos % cap = pos' % cap →
      writeSamples cap buf pos l = writeSamples cap buf pos' l := by
  induction l with
  | nil => intro buf pos pos' _; rfl
  | cons s rest ih =>
    intro buf pos pos' h
    simp only [writeSamples, h]
    exact ih _ (pos + 1) (pos' + 1) (by rw [Nat.add_mod, h, ← Nat.add_mod])

/-- The window property of the write loop: a sample whose global index is
within the last `cap` writes is still in its cell. -/
theorem writeSamples_get (cap : Nat) (hcap : 0 < cap) (stream : List Int) :
    ∀ buf pos g, buf.length = cap → g < stream.length → stream.length ≤ g + cap →
      (writeSamples cap buf pos stream).getD ((pos + g) % cap) 0 = stream.getD g 0 := by
  induction stream using List.reverseRecOn with
  | nil => intro buf pos g _ hg _; cases hg
  | append_singleton l s ih =>
    intro buf pos g hlen hg hwin
    simp only [List.length_append, List.length_singleton] at hg hwin
    rw [writeSamples_append]
    simp only [writeSamples]
    have hWlen : (writeSamples cap buf pos l).length = cap := by
      rw [writeSamples_length]; exact hlen
    rcases Nat.lt_or_ge g l.length with hgl | hge
    · -- old sample, untouched by the final write
      have hne : (pos + l.length) % cap ≠ (pos + g) % cap := by
        intro heq
        have hmod : pos + g ≡ pos + l.length [MOD cap] := heq.symm
        have hdvd : cap ∣ (pos + l.length) - (pos + g) :=
          (Nat.modEq_iff_dvd' (by omega)).mp hmod
        have hsub : (pos + l.length) - (pos + g) = l.length - g := by omega
        rw [hsub] at hdvd
        have hlt : l.length - g < cap := by omega
        have hpos : 0 < l.length - g := by omega
        exact absurd (Nat.le_of_dvd hpos hdvd) (by omega)
      rw [List.getD_eq_getElem?_getD, List.getElem?_set_ne hne,
        ← List.getD_eq_getElem?_getD]
      rw [ih buf pos g hlen hgl (by omega)]
      simp [List.getD_eq_getElem?_getD, List.getElem?_append_left hgl]
    · -- g is the just-written sample
      have hgeq : g = l.length := by omega
      subst hgeq
      rw [List.getD_eq_getElem?_getD,
        List.getElem?_set_self (by rw [hWlen]; exact Nat.mod_lt _ hcap)]
      simp [List.getD_eq_getElem?_getD]

/-- A frame push takes the canonical ring of `stream` to the canonical
ring of `stream ++ f`. -/
theorem push_frame_canon (C : Nat) (stream f : List Int) :
    ((canonRing C stream).push_frame f).2 = canonRing C (stream ++ f) := by
  simp only [AudioRingBuffer.push_frame, canonRing, List.length_append]
  rw [writeSamples_append]
  rw [writeSamples_congr C f (writeSamples C (List.replicate C 0) 0 stream)
    (0 + stream.length) (stream.length % C) (by simp)]
  rw [Nat.mod_add_mod]

/-- Folding the pushes of a frame sequence yields the canonical ring of
the joined sample stream. -/
theorem ringRun_canon (C : Nat) (frames : List (List Int)) :
    ringRun C frames = canonRing C frames.flatten := by
  have h0 : AudioRingBuffer.new C = canonRing C [] := by
    simp [AudioRingBuffer.new, canonRing, writeSamples]
  have hfold : ∀ (fs : List (List Int)) (stream : List Int),
      fs.foldl (fun r f => (r.push_frame f).2) (canonRing C stream) =
        canonRing C (stream ++ fs.flatten) := by
    intro fs
    induction fs with
    | nil => intro stream; simp
    | cons f rest ih =>
      intro stream
      simp only [List.foldl_cons, List.flatten_cons]
      rw [push_frame_canon, ih, List.append_assoc]
  rw [ringRun, h0]
  simpa using hfold frames []

/-- The read-position arithmetic of `get_range`: within the live window
the rotating read index lands on cell `g % C`. -/
theorem read_pos_eq (C len g : Nat) (_hC : 0 < C) (hg : g ≤ len) (hwin : len ≤ g + C) :
    (len % C + C - (len - g)) % C = g % C := by
  have h1 : len % C + C ≡ len + C [MOD C] := (Nat.mod_modEq len C).add_right C
  have h2 : (len % C + C - (len - g)) + (len - g) ≡
      (len + C - (len - g)) + (len - g) [MOD C] := by
    have e1 : (len % C + C - (len - g)) + (len - g) = len % C + C := by omega
    have e2 : (len + C - (len - g)) + (len - g) = len + C := by omega
    rw [e1, e2]; exact h1
  have h3 : len % C + C - (len - g) ≡ len + C - (len - g) [MOD C] :=
    Nat.ModEq.add_right_cancel' _ h2
  have h4 : len + C - (len - g) = g + C := by omega
  calc (len % C + C - (len - g)) % C
      = (len + C - (len - g)) % C := h3
    _ = (g + C) % C := by rw [h4]
    _ = g % C := Nat.add_mod_right g C

/-- On the canonical ring, an in-window `get_range` returns exactly the
written samples. -/
theorem canon_get_range_pos (C : Nat) (hC : 0 < C) (stream : List Int) (a b : Nat)
    (hcond : ¬(a < stream.length - C ∨ b > stream.length)) :
    (canonRing C stream).get_range a b =
      some ((List.range' a (b - a)).map (fun g => stream.getD g 0)) := by
  simp only [AudioRingBuffer.get_range, canonRing]
  rw [if_neg hcond]
  push_neg at hcond
  obtain ⟨ha, hb⟩ := hcond
  congr 1
  apply List.map_congr_left
  intro g hg
  rw [List.mem_range'_1] at hg
  obtain ⟨hga, hgb⟩ := hg
  have hglen : g < stream.length := by omega
  have hwin : stream.length ≤ g + C := by omega
  rw [read_pos_eq C stream.length g hC (le_of_lt hglen) hwin]
  have h := writeSamples_get C hC stream (List.replicate C 0) 0 g
    (by simp) hglen hwin
  simpa using h

theorem canon_get_range_none (C : Nat) (stream : List Int) (a b : Nat)
    (hcond : a < stream.length - C ∨ b > stream.length) :
    (canonRing C stream).get_range a b = none := by
  simp only [AudioRingBuffer.get_range, canonRing]
  rw [if_pos hcond]

/-- **C2.**  For every write sequence into a ring of capacity `C > 0`
and every range `[a, b)`: `get_range` returns `none` iff
`a < current_global - C` or `b > current_global` (where `current_global`
is the length of the full written stream), and otherwise returns exactly
the samples written at those global indices, in order. -/
theorem c2_ring_buffer_get_range (C : Nat) (hC : 0 < C)
    (frames : List (List Int)) (a b : Nat) :
    ((ringRun C frames).get_range a b = none ↔
      (a < frames.flatten.length - C ∨ b > frames.flatten.length)) ∧
    (¬(a < frames.flatten.length - C ∨ b > frames.flatten.length) →
      (ringRun C frames).get_range a b =
        some ((List.range' a (b - a)).map (fun g => frames.flatten.getD g 0))) := by
  rw [ringRun_canon]
  constructor
  · constructor
    · intro h
      by_contra hcond
      rw [canon_get_range_pos C hC frames.flatten a b hcond] at h
      cases h
    · exact canon_get_range_none C frames.flatten a b
  · exact canon_get_range_pos C hC frames.flatten a b

theorem c2_witness :
    ¬((1 : Nat) < ([[1, 2], [3]] : List (List Int)).flatten.length - 2 ∨
        (3 : Nat) > ([[1, 2], [3]] : List (List Int)).flatten.length) ∧
    (ringRun 2 [[1, 2], [3]]).get_range 1 3 =
      some ((List.range' 1 (3 - 1)).map
        (fun g => ([[1, 2], [3]] : List (List Int)).flatten.getD g 0)) :=
  ⟨by decide, (c2_ring_buffer_get_range 2 (by decide) [[1, 2], [3]] 1 3).2 (by decide)⟩

/-! ## Segmenter data model (src/audio_seg.rs) -/

/-- `struct SegConfig` (src/audio_seg.rs:41-58). -/
structure SegConfig where
  open_voiced_frames : Nat
  close_silence_ms : Nat
  max_turn_ms : Nat
  min_clause_tokens : Nat
  asr_poll_ms : Nat
  ring_capacity : Nat
  asr_pool_size : Nat
  asr_timeout_ms : Nat
deriving DecidableEq, Repr

/-- `impl Default for SegConfig` (src/audio_seg.rs:60-73). -/
def SegConfig.default : SegConfig where
  open_voiced_frames := 6
  close_silence_ms := 300
  max_turn_ms := 5000
  min_clause_tokens := 4
  asr_poll_ms := 250
  ring_capacity := 320000
  asr_pool_size := 2
  asr_timeout_ms := 2000

/-- `enum CloseReason` (src/audio_seg.rs:21-28). -/
inductive CloseReason where
  | silence
  | maxLength
  | asrClause
deriving DecidableEq, Repr

/-- `struct SegmentedTurn` (src/audio_seg.rs:32-37). -/
structure SegmentedTurn where
  id : Nat
  audio : List Int
  close_reason : CloseReason
  text : Option String
deriving DecidableEq, Repr

/-- `struct FrameMeta` (src/audio_seg.rs:150-154); the `Instant`
timestamp is a `Nat` of milliseconds. -/
structure FrameMeta where
  timestamp : Nat
  start_idx : Nat
  voiced : Bool
deriving DecidableEq, Repr

/-- `struct AsrProposal` (src/audio_seg.rs:158-162); the `f32`
confidence (never read by the FSM) is modelled as a rational. -/
structure AsrProposal where
  clause_end_idx : Nat
  text : String
  confidence : ℚ
deriving DecidableEq, Repr

/-- `enum BoundaryEvent` (src/audio_seg.rs:166-170). -/
inductive BoundaryEvent where
  | silenceClose (start_idx end_idx : Nat)
  | maxLenClose (start_idx end_idx : Nat)
  | asrClose (start_idx end_idx : Nat) (text : String)
deriving DecidableEq, Repr

/-- `struct SegmentCommit` (src/audio_seg.rs:174-180); the range is the
pair `(start, end)` and the timestamp a `Nat` of milliseconds. -/
structure SegmentCommit where
  id : Nat
  range_start : Nat
  range_end : Nat
  reason : CloseReason
  text : Option String
  timestamp : Nat
deriving DecidableEq, Repr

/-! ## Frame classifier (`FrameClassifier`, src/audio_seg.rs:183-219)

The underlying webrtc VAD detector is external to the repository; it is
passed in as an oracle `vad : List Int → Except String Bool`
(`is_voice_segment` returns a Result).  The `frame_queue.send` of a
successfully classified frame is modelled by returning the `FrameMeta`
(a send failure is only logged in the source and cannot change the
emitted value). -/

/-- `FrameClassifier::classify_frame` (src/audio_seg.rs:200-218). -/
def classify_frame (vad : List Int → Except String Bool) (samples : List Int)
    (global_idx : Nat) (timestamp : Nat) : Except String FrameMeta :=
  if samples.length ≠ 320 then
    .error ("Expected 320 samples for 20ms frame, got " ++ toString samples.length)
  else
    match vad samples with
    | .error _ => .error "VAD error"
    | .ok voiced => .ok { timestamp := timestamp, start_idx := global_idx, voiced := voiced }

/-! ## Clause validation (src/audio_seg.rs:363-385 and 586-610) -/

/-- `str::trim` over the char sequence: drop leading and trailing
whitespace.  (Rust trims Unicode whitespace; `Char.isWhitespace` covers
the ASCII subset, which is all the pipeline's English transcripts use.
Implemented structurally so concrete witnesses evaluate by `decide`.) -/
def trimChars (l : List Char) : List Char :=
  ((l.dropWhile Char.isWhitespace).reverse.dropWhile Char.isWhitespace).reverse

/-- `t.ends_with(['.', '?', '!', ';'])`: the last char is in the set. -/
def endsWithSentenceEnder (t : List Char) : Bool :=
  match t.getLast? with
  | some c => ['.', '?', '!', ';'].contains c
  | none => false

/-- The token counter of `t.split_whitespace().count()`: the number of
maximal nonempty runs of non-whitespace chars (`inWord` tracks whether
the previous char was inside such a run). -/
def countTokens : List Char → Bool → Nat
  | [], _ => 0
  | c :: rest, inWord =>
    if Char.isWhitespace c then countTokens rest false
    else (if inWord then 0 else 1) + countTokens rest true

/-- `t.split_whitespace().count()`. -/
def splitWhitespaceCount (t : List Char) : Nat := countTokens t false

/-- `str::contains(needle)` on char lists: some suffix of the haystack
starts with the needle. -/
def containsSub (needle : List Char) : List Char → Bool
  | [] => needle.isEmpty
  | c :: rest => needle.isPrefixOf (c :: rest) || containsSub needle rest

/-- The clause-validation body shared by `BoundaryFSM::is_valid_clause`
(src/audio_seg.rs:363-385), which reads only `config.min_clause_tokens`
from the FSM.  Includes the speech-disfluency acceptance of the
source. -/
def is_valid_clause_cfg (config : SegConfig) (text : String) : Bool :=
  let t := trimChars text.data
  if t = [] then false
  else if endsWithSentenceEnder t then true
  else if splitWhitespaceCount t ≥ config.min_clause_tokens then true
  else
    [',', '-'].contains (t.getLast?.getD ' ')
      || " and".data.isSuffixOf t || " but".data.isSuffixOf t
      || containsSub " because ".data t

/-- `is_valid_clause_simple` (src/audio_seg.rs:586-610): the strict
variant used by the ASR pool's `extract_clause_boundary`.  The
disfluency acceptance is commented out in the source and the function
returns `false` past the token threshold. -/
def is_valid_clause_simple (text : String) (min_tokens : Nat) : Bool :=
  let t := trimChars text.data
  if t = [] then false
  else if endsWithSentenceEnder t then true
  else if splitWhitespaceCount t ≥ min_tokens then true
  else false

/-! ## Boundary FSM (`BoundaryFSM`, src/audio_seg.rs:238-398)

The `asr_proposals` receiver is modelled by passing the pending
proposals of a frame as a list; the `boundary_events` sender by
returning the list of emitted events. -/

/-- `enum BoundaryState` (src/audio_seg.rs:223-235). -/
inductive BoundaryState where
  | idle
  | recording (seg_start_idx last_voice_idx started_at : Nat)
  | committing (seg_start_idx last_voice_idx started_at : Nat)
deriving DecidableEq, Repr

/-- `struct BoundaryFSM` (src/audio_seg.rs:238-245); `voiced_score` is
the `f32` score as an exact rational (none of the theorems below depend
on float rounding). -/
structure BoundaryFSM where
  config : SegConfig
  state : BoundaryState
  voiced_score : ℚ
  next_seg_id : Nat
deriving DecidableEq, Repr

namespace BoundaryFSM

/-- `BoundaryFSM::is_valid_clause`: delegates to the config-level body
(the method reads nothing else from `self`). -/
def is_valid_clause (f : BoundaryFSM) (text : String) : Bool :=
  is_valid_clause_cfg f.config text

/-- `BoundaryFSM::handle_asr_proposal` (src/audio_seg.rs:340-361);
`now` is the `Instant::now()` of the `Committing` transition. -/
def handle_asr_proposal (f : BoundaryFSM) (proposal : AsrProposal)
    (current_global_idx now : Nat) : BoundaryFSM × List BoundaryEvent :=
  match f.state with
  | .recording seg_start_idx _ _ =>
    if proposal.clause_end_idx > seg_start_idx ∧
        proposal.clause_end_idx < current_global_idx ∧
        f.is_valid_clause proposal.text = true then
      ({ f with next_seg_id := f.next_seg_id + 1,
                state := .committing proposal.clause_end_idx proposal.clause_end_idx now },
       [.asrClose seg_start_idx proposal.clause_end_idx proposal.text])
    else (f, [])
  | _ => (f, [])

end BoundaryFSM

/-- The `while let Ok(proposal) = self.asr_proposals.try_recv()` drain
loop at the top of `process_frame`. -/
def drainProposals (cgi now : Nat) :
    BoundaryFSM → List AsrProposal → BoundaryFSM × List BoundaryEvent
  | f, [] => (f, [])
  | f, p :: rest =>
    let r1 := f.handle_asr_proposal p cgi now
    let r2 := drainProposals cgi now r1.1 rest
    (r2.1, r1.2 ++ r2.2)

namespace BoundaryFSM

/-- `BoundaryFSM::process_frame` (src/audio_seg.rs:265-338).  `now` is
the frame-processing `Instant::now()`, `proposals` the pending ASR
proposals drained by `try_recv`; the emitted boundary events are
returned in send order. -/
def process_frame (f : BoundaryFSM) (frame : FrameMeta)
    (current_global_idx now : Nat) (proposals : List AsrProposal) :
    BoundaryFSM × List BoundaryEvent :=
  let f := { f with voiced_score :=
    f.voiced_score * (3 / 4 : ℚ) + (if frame.voiced then 1 else 0) }
  let dr := drainProposals current_global_idx now f proposals
  let f := dr.1
  let evs := dr.2
  match f.state with
  | .idle =>
    if f.voiced_score ≥ 3 then
      ({ f with state := .recording (frame.start_idx - 8000) frame.start_idx now }, evs)
    else (f, evs)
  | .recording seg_start_idx last_voice_idx started_at =>
    let new_last_voice := if frame.voiced then frame.start_idx else last_voice_idx
    let elapsed := now - started_at
    let silence_samples := current_global_idx - new_last_voice
    let silence_ms := silence_samples * 1000 / 16000
    let close_event : Option BoundaryEvent :=
      if elapsed ≥ f.config.max_turn_ms then
        some (.maxLenClose seg_start_idx current_global_idx)
      else if silence_ms ≥ f.config.close_silence_ms then
        some (.silenceClose seg_start_idx current_global_idx)
      else none
    match close_event with
    | some event =>
      ({ f with next_seg_id := f.next_seg_id + 1, state := .idle, voiced_score := 0 },
       evs ++ [event])
    | none =>
      ({ f with state := .recording seg_start_idx new_last_voice started_at }, evs)
  | .committing _ _ _ =>
    if f.voiced_score ≥ 3 then
      ({ f with state := .recording (frame.start_idx - 1600) frame.start_idx now }, evs)
    else (f, evs)

end BoundaryFSM

/-- A proposal handled outside the `Recording` state changes nothing. -/
theorem handle_not_recording (f : BoundaryFSM) (p : AsrProposal) (cgi now : Nat)
    (h : ∀ a b c, f.state ≠ BoundaryState.recording a b c) :
    f.handle_asr_proposal p cgi now = (f, []) := by
  unfold BoundaryFSM.handle_asr_proposal
  cases hst : f.state with
  | idle => rfl
  | committing a b c => rfl
  | recording a b c => exact absurd hst (h a b c)

/-- Draining proposals from a non-`Recording` state changes nothing. -/
theorem drain_not_recording (cgi now : Nat) (ps : List AsrProposal) :
    ∀ f : BoundaryFSM, (∀ a b c, f.state ≠ BoundaryState.recording a b c) →
      drainProposals cgi now f ps = (f, []) := by
  induction ps with
  | nil => intro f _; rfl
  | cons p rest ih =>
    intro f h
    simp only [drainProposals, handle_not_recording f p cgi now h, ih f h]
    rfl

/-- The drain loop emits at most one event; if it emits, the FSM has
moved to `Committing` (so later proposals and the frame checks of the
same call cannot emit again). -/
theorem drain_spec (cgi now : Nat) (ps : List AsrProposal) :
    ∀ f : BoundaryFSM,
      (drainProposals cgi now f ps).2.length ≤ 1 ∧
      ((drainProposals cgi now f ps).2 ≠ [] →
        ∃ a b c, (drainProposals cgi now f ps).1.state = BoundaryState.committing a b c) := by
  induction ps with
  | nil => intro f; exact ⟨by simp [drainProposals], by simp [drainProposals]⟩
  | cons p rest ih =>
    intro f
    simp only [drainProposals]
    cases hst : f.state with
    | idle =>
      rw [handle_not_recording f p cgi now (by simp [hst])]
      simpa using ih f
    | committing a b c =>
      rw [handle_not_recording f p cgi now (by simp [hst])]
      simpa using ih f
    | recording a b c =>
      by_cases hcond : p.clause_end_idx > a ∧ p.clause_end_idx < cgi ∧
          f.is_valid_clause p.text = true
      · have hh : f.handle_asr_proposal p cgi now =
            ({ f with next_seg_id := f.next_seg_id + 1,
                      state := .committing p.clause_end_idx p.clause_end_idx now },
             [.asrClose a p.clause_end_idx p.text]) := by
          simp only [BoundaryFSM.handle_asr_proposal, hst]
          exact if_pos hcond
        rw [hh]
        have hrest := drain_not_recording cgi now rest
          { f with next_seg_id := f.next_seg_id + 1,
                   state := .committing p.clause_end_idx p.clause_end_idx now }
          (by intro x y z; simp)
        rw [hrest]
        exact ⟨by simp, by intro _; exact ⟨p.clause_end_idx, p.clause_end_idx, now, by simp⟩⟩
      · have hh : f.handle_asr_proposal p cgi now = (f, []) := by
          simp only [BoundaryFSM.handle_asr_proposal, hst]
          exact if_neg hcond
        rw [hh]
        simpa using ih f

/-- Helper: per-frame, at most one boundary event is emitted. -/
theorem process_frame_at_most_one (f : BoundaryFSM) (frame : FrameMeta)
    (cgi now : Nat) (ps : List AsrProposal) :
    (f.process_frame frame cgi now ps).2.length ≤ 1 := by
  obtain ⟨cfg, st, vs, nid⟩ := f
  simp only [BoundaryFSM.process_frame]
  obtain ⟨h1, h2⟩ := drain_spec cgi now ps
    ⟨cfg, st, vs * (3 / 4 : ℚ) + (if frame.voiced then 1 else 0), nid⟩
  rcases hdr : drainProposals cgi now
      ⟨cfg, st, vs * (3 / 4 : ℚ) + (if frame.voiced then 1 else 0), nid⟩ ps with ⟨f1, evs⟩
  rw [hdr] at h1 h2
  simp only at h1 h2 ⊢
  cases hst1 : f1.state with
  | idle =>
    by_cases hsc : f1.voiced_score ≥ 3 <;> simp [hsc, h1]
  | committing a b c =>
    by_cases hsc : f1.voiced_score ≥ 3 <;> simp [hsc, h1]
  | recording a b c =>
    have hevs : evs = [] := by
      by_contra hne
      obtain ⟨x, y, z, habs⟩ := h2 hne
      rw [hst1] at habs
      cases habs
    subst hevs
    by_cases hmax : now - c ≥ f1.config.max_turn_ms
    · simp [hmax]
    · by_cases hsil : (cgi - (if frame.voiced then frame.start_idx else b)) * 1000 / 16000 ≥
          f1.config.close_silence_ms
      · simp [hmax, hsil]
      · simp [hmax, hsil]

/-- Helper: with no pending proposal, an overlong `Recording` frame
emits `MaxLenClose` (even when the silence condition also holds). -/
theorem process_frame_maxlen_priority (f : BoundaryFSM) (frame : FrameMeta)
    (cgi now a b c : Nat)
    (hst : f.state = BoundaryState.recording a b c)
    (hmax : now - c ≥ f.config.max_turn_ms) :
    (f.process_frame frame cgi now []).2 = [BoundaryEvent.maxLenClose a cgi] := by
  obtain ⟨cfg, st, vs, nid⟩ := f
  simp only at hst hmax
  subst hst
  simp [BoundaryFSM.process_frame, drainProposals, hmax]

/-- Helper: a pending valid proposal in `Recording` emits `AsrClose`,
regardless of the frame's own closing conditions (the drain loop runs
first and moves the FSM to `Committing`). -/
theorem process_frame_asr_preempts (f : BoundaryFSM) (frame : FrameMeta)
    (cgi now a b c : Nat) (p : AsrProposal)
    (hst : f.state = BoundaryState.recording a b c)
    (hgt : p.clause_end_idx > a) (hlt : p.clause_end_idx < cgi)
    (hvalid : f.is_valid_clause p.text = true) :
    (f.process_frame frame cgi now [p]).2 =
      [BoundaryEvent.asrClose a p.clause_end_idx p.text] := by
  obtain ⟨cfg, st, vs, nid⟩ := f
  simp only at hst hvalid
  subst hst
  have hstep : drainProposals cgi now
      ⟨cfg, .recording a b c, vs * (3 / 4 : ℚ) + (if frame.voiced then 1 else 0), nid⟩ [p] =
      (⟨cfg, .committing p.clause_end_idx p.clause_end_idx now,
        vs * (3 / 4 : ℚ) + (if frame.voiced then 1 else 0), nid + 1⟩,
       [.asrClose a p.clause_end_idx p.text]) := by
    simp only [drainProposals]
    have hh : BoundaryFSM.handle_asr_proposal
        ⟨cfg, .recording a b c, vs * (3 / 4 : ℚ) + (if frame.voiced then 1 else 0), nid⟩
        p cgi now =
        (⟨cfg, .committing p.clause_end_idx p.clause_end_idx now,
          vs * (3 / 4 : ℚ) + (if frame.voiced then 1 else 0), nid + 1⟩,
         [.asrClose a p.clause_end_idx p.text]) := by
      exact if_pos ⟨hgt, hlt, hvalid⟩
    rw [hh]
    simp [drainProposals]
  simp only [BoundaryFSM.process_frame]
  rw [hstep]
  by_cases hsc : (vs * (3 / 4 : ℚ) + (if frame.voiced then 1 else 0)) ≥ 3 <;> simp [hsc]

/-- **C3 counterexample.**  A frame on which both the max-length
condition and a valid pending ASR proposal hold: the drain loop runs
*before* the `Recording` checks, so the emitted event is `AsrClose`,
not the `MaxLenClose` required by the claimed priority. -/
def c3fsm : BoundaryFSM :=
  { config := SegConfig.default, state := .recording 0 0 0, voiced_score := 0, next_seg_id := 1 }

def c3prop : AsrProposal := { clause_end_idx := 100, text := "Hello there.", confidence := 1 }

def c3frame : FrameMeta := { timestamp := 6000, start_idx := 96000, voiced := true }

theorem c3_counterexample :
    6000 - 0 ≥ c3fsm.config.max_turn_ms ∧
    (c3fsm.process_frame c3frame 96320 6000 [c3prop]).2 =
      [BoundaryEvent.asrClose 0 100 "Hello there."] ∧
    (c3fsm.process_frame c3frame 96320 6000 [c3prop]).2 ≠
      [BoundaryEvent.maxLenClose 0 96320] := by
  have h2 := process_frame_asr_preempts c3fsm c3frame 96320 6000 0 0 0 c3prop rfl
    (by decide) (by decide) (by decide)
  refine ⟨by decide, h2, ?_⟩
  rw [h2]
  decide

/-- **C3 (amended).**  Per input frame the boundary FSM emits at most
one boundary event (first conjunct).  The priority when several closing
conditions hold on one frame is: a pending valid ASR proposal wins
(drained before the frame checks — third conjunct, which applies even
when the max-length/silence conditions hold), then `MaxLenClose` beats
`SilenceClose` among the frame checks (second conjunct). -/
theorem c3_amended_one_event_and_priority :
    (∀ (f : BoundaryFSM) (frame : FrameMeta) (cgi now : Nat) (ps : List AsrProposal),
      (f.process_frame frame cgi now ps).2.length ≤ 1) ∧
    (∀ (f : BoundaryFSM) (frame : FrameMeta) (cgi now a b c : Nat),
      f.state = BoundaryState.recording a b c →
      now - c ≥ f.config.max_turn_ms →
      (f.process_frame frame cgi now []).2 = [BoundaryEvent.maxLenClose a cgi]) ∧
    (∀ (f : BoundaryFSM) (frame : FrameMeta) (cgi now a b c : Nat) (p : AsrProposal),
      f.state = BoundaryState.recording a b c →
      p.clause_end_idx > a → p.clause_end_idx < cgi →
      f.is_valid_clause p.text = true →
      (f.process_frame frame cgi now [p]).2 =
        [BoundaryEvent.asrClose a p.clause_end_idx p.text]) :=
  ⟨process_frame_at_most_one, process_frame_maxlen_priority, process_frame_asr_preempts⟩

/-- Witness for C3: the single-event bound at the counterexample input,
the max-length priority on an overlong frame, and the ASR preemption at
the counterexample input. -/
theorem c3_witness :
    (c3fsm.process_frame c3frame 96320 6000 [c3prop]).2.length ≤ 1 ∧
    (c3fsm.process_frame c3frame 96320 6000 []).2 = [BoundaryEvent.maxLenClose 0 96320] ∧
    (c3fsm.process_frame c3frame 96320 6000 [c3prop]).2 =
      [BoundaryEvent.asrClose 0 100 "Hello there."] :=
  ⟨c3_amended_one_event_and_priority.1 c3fsm c3frame 96320 6000 [c3prop],
   c3_amended_one_event_and_priority.2.1 c3fsm c3frame 96320 6000 0 0 0 rfl (by decide),
   c3_amended_one_event_and_priority.2.2 c3fsm c3frame 96320 6000 0 0 0 c3prop rfl
     (by decide) (by decide) (by decide)⟩

/-! ## C4: the clause validators -/

def c4fsm : BoundaryFSM :=
  { config := SegConfig.default, state := .idle, voiced_score := 0, next_seg_id := 1 }

/-- **C4 counterexample.**  "I think," trims nonempty, does not end in a
sentence terminator, and has 2 < 4 tokens, so the claim says the
boundary FSM's validator returns `false`; but `BoundaryFSM::is_valid_clause`
is the permissive draft (trailing comma/dash, " and"/" but" suffixes and
" because " are accepted), so it returns `true`.  (The strict behaviour
the claim describes is `is_valid_clause_simple`, used by the ASR pool's
`extract_clause_boundary`, not by the boundary FSM.) -/
theorem c4_counterexample :
    c4fsm.is_valid_clause "I think," = true ∧
    trimChars "I think,".data ≠ [] ∧
    endsWithSentenceEnder (trimChars "I think,".data) = false ∧
    splitWhitespaceCount (trimChars "I think,".data) < c4fsm.config.min_clause_tokens := by
  decide

/-- **C4 (amended).**  The validator used by the boundary FSM
(`BoundaryFSM::is_valid_clause`) returns `false` on empty trimmed text,
`true` on a trailing `.?!;`, `true` when the whitespace token count
reaches `min_clause_tokens`, and in the remaining cases accepts exactly
the speech disfluencies: trailing comma or dash, suffix " and" or
" but", or an occurrence of " because " (conjuncts 1-4).  The strict
behaviour of the claim — `false` in every other case — is exactly
`is_valid_clause_simple`, the variant used by the ASR pool's clause
extraction (conjuncts 5-8). -/
theorem c4_amended_clause_validators :
    (∀ (f : BoundaryFSM) (text : String),
      trimChars text.data = [] → f.is_valid_clause text = false) ∧
    (∀ (f : BoundaryFSM) (text : String),
      endsWithSentenceEnder (trimChars text.data) = true → f.is_valid_clause text = true) ∧
    (∀ (f : BoundaryFSM) (text : String),
      trimChars text.data ≠ [] →
      splitWhitespaceCount (trimChars text.data) ≥ f.config.min_clause_tokens →
      f.is_valid_clause text = true) ∧
    (∀ (f : BoundaryFSM) (text : String),
      trimChars text.data ≠ [] →
      endsWithSentenceEnder (trimChars text.data) = false →
      splitWhitespaceCount (trimChars text.data) < f.config.min_clause_tokens →
      f.is_valid_clause text =
        ([',', '-'].contains ((trimChars text.data).getLast?.getD ' ')
          || " and".data.isSuffixOf (trimChars text.data)
          || " but".data.isSuffixOf (trimChars text.data)
          || containsSub " because ".data (trimChars text.data))) ∧
    (∀ (text : String) (min_tokens : Nat),
      trimChars text.data = [] → is_valid_clause_simple text min_tokens = false) ∧
    (∀ (text : String) (min_tokens : Nat),
      endsWithSentenceEnder (trimChars text.data) = true →
      is_valid_clause_simple text min_tokens = true) ∧
    (∀ (text : String) (min_tokens : Nat),
      trimChars text.data ≠ [] →
      splitWhitespaceCount (trimChars text.data) ≥ min_tokens →
      is_valid_clause_simple text min_tokens = true) ∧
    (∀ (text : String) (min_tokens : Nat),
      trimChars text.data ≠ [] →
      endsWithSentenceEnder (trimChars text.data) = false →
      splitWhitespaceCount (trimChars text.data) < min_tokens →
      is_valid_clause_simple text min_tokens = false) := by
  refine ⟨?_, ?_, ?_, ?_, ?_, ?_, ?_, ?_⟩
  · intro f text h
    simp [BoundaryFSM.is_valid_clause, is_valid_clause_cfg, h]
  · intro f text hends
    have hne : trimChars text.data ≠ [] := by
      intro h
      rw [h] at hends
      simp [endsWithSentenceEnder] at hends
    simp [BoundaryFSM.is_valid_clause, is_valid_clause_cfg, hne, hends]
  · intro f text hne hcount
    by_cases hends : endsWithSentenceEnder (trimChars text.data) = true <;>
      simp [BoundaryFSM.is_valid_clause, is_valid_clause_cfg, hne, hends, hcount]
  · intro f text hne hends hlt
    have hnotge : ¬(splitWhitespaceCount (trimChars text.data) ≥
        f.config.min_clause_tokens) := by omega
    simp [BoundaryFSM.is_valid_clause, is_valid_clause_cfg, hne, hends, hnotge]
  · intro text min_tokens h
    simp [is_valid_clause_simple, h]
  · intro text min_tokens hends
    have hne : trimChars text.data ≠ [] := by
      intro h
      rw [h] at hends
      simp [endsWithSentenceEnder] at hends
    simp [is_valid_clause_simple, hne, hends]
  · intro text min_tokens hne hcount
    by_cases hends : endsWithSentenceEnder (trimChars text.data) = true <;>
      simp [is_valid_clause_simple, hne, hends, hcount]
  · intro text min_tokens hne hends hlt
    have hnotge : ¬(splitWhitespaceCount (trimChars text.data) ≥ min_tokens) := by omega
    simp [is_valid_clause_simple, hne, hends, hnotge]

theorem c4_witness :
    c4fsm.is_valid_clause "   " = false ∧
    c4fsm.is_valid_clause "Ok then." = true ∧
    c4fsm.is_valid_clause "one two three four" = true ∧
    c4fsm.is_valid_clause "I think," =
      ([',', '-'].contains ((trimChars "I think,".data).getLast?.getD ' ')
        || " and".data.isSuffixOf (trimChars "I think,".data)
        || " but".data.isSuffixOf (trimChars "I think,".data)
        || containsSub " because ".data (trimChars "I think,".data)) ∧
    is_valid_clause_simple "Too short" 4 = false :=
  ⟨c4_amended_clause_validators.1 c4fsm "   " (by decide),
   c4_amended_clause_validators.2.1 c4fsm "Ok then." (by decide),
   c4_amended_clause_validators.2.2.1 c4fsm "one two three four" (by decide) (by decide),
   c4_amended_clause_validators.2.2.2.1 c4fsm "I think," (by decide) (by decide) (by decide),
   c4_amended_clause_validators.2.2.2.2.2.2.2 "Too short" 4 (by decide) (by decide) (by decide)⟩

/-! ## C5: the frame classifier -/

/-- A failing VAD oracle (`is_voice_segment` returning `Err`). -/
def vadFail : List Int → Except String Bool := fun _ => .error "boom"

/-- **C5 counterexample.**  The claim says a VAD failure on a 320-sample
frame is logged and the frame still emitted with `voiced = false`.  In
the code `self.vad.is_voice_segment(samples).map_err(|_| "VAD error")?`
propagates the error with `?`: `classify_frame` returns
`Err("VAD error")` and no `FrameMeta` is emitted at all. -/
theorem c5_counterexample :
    classify_frame vadFail (List.replicate 320 0) 0 0 = Except.error "VAD error" ∧
    classify_frame vadFail (List.replicate 320 0) 0 0 ≠
      Except.ok { timestamp := 0, start_idx := 0, voiced := false } := by
  have h : classify_frame vadFail (List.replicate 320 0) 0 0 =
      Except.error "VAD error" := by rfl
  exact ⟨h, by rw [h]; simp⟩

/-- **C5 (amended).**  A slice that is not exactly 320 samples is
rejected with an error and no `FrameMeta` (first conjunct, true as
claimed).  When the VAD detector fails on a 320-sample frame,
`classify_frame` returns the error `"VAD error"` and emits no
`FrameMeta` (second conjunct) — the frame is not emitted as unvoiced.
On success the frame is emitted with the detector's verdict (third
conjunct). -/
theorem c5_amended_classifier_errors :
    (∀ (vad : List Int → Except String Bool) (samples : List Int) (gi ts : Nat),
      samples.length ≠ 320 →
      classify_frame vad samples gi ts =
        .error ("Expected 320 samples for 20ms frame, got " ++ toString samples.length)) ∧
    (∀ (vad : List Int → Except String Bool) (samples : List Int) (gi ts : Nat)
        (err : String),
      samples.length = 320 → vad samples = .error err →
      classify_frame vad samples gi ts = .error "VAD error") ∧
    (∀ (vad : List Int → Except String Bool) (samples : List Int) (gi ts : Nat) (v : Bool),
      samples.length = 320 → vad samples = .ok v →
      classify_frame vad samples gi ts =
        .ok { timestamp := ts, start_idx := gi, voiced := v }) := by
  refine ⟨?_, ?_, ?_⟩
  · intro vad samples gi ts h
    simp [classify_frame, h]
  · intro vad samples gi ts err hlen hvad
    simp [classify_frame, hlen, hvad]
  · intro vad samples gi ts v hlen hvad
    simp [classify_frame, hlen, hvad]

theorem c5_witness :
    classify_frame vadFail [0] 0 0 =
      Except.error ("Expected 320 samples for 20ms frame, got " ++
        toString ([0] : List Int).length) ∧
    classify_frame vadFail (List.replicate 320 0) 5 7 = Except.error "VAD error" ∧
    classify_frame (fun _ => .ok true) (List.replicate 320 0) 5 7 =
      Except.ok { timestamp := 7, start_idx := 5, voiced := true } :=
  ⟨c5_amended_classifier_errors.1 vadFail [0] 0 0 (by decide),
   c5_amended_classifier_errors.2.1 vadFail (List.replicate 320 0) 5 7 "boom"
     (by decide) rfl,
   c5_amended_classifier_errors.2.2 (fun _ => .ok true) (List.replicate 320 0) 5 7 true
     (by decide) rfl⟩

/-! ## Segment emitter (`SegmentEmitter`, src/audio_seg.rs:613-701)

The `BTreeMap<u64, SegmentCommit>` of pending commits is modelled as an
association list with unique keys (`mapInsert` replaces, as
`BTreeMap::insert` does); only lookup/insert/remove of `next_emit_id`
and `seg_id` are ever used, so the tree order is irrelevant.  The shared
`Arc<AudioRingBuffer>` is a field, with pushes as an explicit
operation.  `output_queue` accumulates every emitted segment (the
emission history; `pop_segment` merely dequeues from the front). -/

def mapLookup (m : List (Nat × SegmentCommit)) (k : Nat) : Option SegmentCommit :=
  (m.find? (fun entry => entry.1 == k)).map (fun entry => entry.2)

def mapErase (m : List (Nat × SegmentCommit)) (k : Nat) : List (Nat × SegmentCommit) :=
  m.filter (fun entry => !(entry.1 == k))

def mapInsert (m : List (Nat × SegmentCommit)) (k : Nat) (v : SegmentCommit) :
    List (Nat × SegmentCommit) :=
  (k, v) :: mapErase m k

structure SegmentEmitter where
  config : SegConfig
  ring : AudioRingBuffer
  pending_commits : List (Nat × SegmentCommit)
  next_emit_id : Nat
  output_queue : List SegmentedTurn

namespace SegmentEmitter

/-- `SegmentEmitter::new` (src/audio_seg.rs:622-630). -/
def new (config : SegConfig) (ring : AudioRingBuffer) : SegmentEmitter :=
  { config := config, ring := ring, pending_commits := [], next_emit_id := 1,
    output_queue := [] }

end SegmentEmitter

/-- One iteration body of `try_emit_ready_segments`' `while` loop, past
the `should_wait` check: remove the head commit, emit it if the ring
still has its range, skip it otherwise; `next_emit_id` advances in both
cases. -/
def emit_head (e : SegmentEmitter) (c : SegmentCommit) : SegmentEmitter :=
  let e1 := { e with pending_commits := mapErase e.pending_commits e.next_emit_id }
  match e.ring.get_range c.range_start c.range_end with
  | some pcm =>
    { e1 with
      output_queue := e1.output_queue ++
        [{ id := e.next_emit_id, audio := pcm, close_reason := c.reason, text := c.text }],
      next_emit_id := e.next_emit_id + 1 }
  | none => { e1 with next_emit_id := e.next_emit_id + 1 }

/-- The `while let Some(commit) = self.pending_commits.get(&self.next_emit_id)`
loop of `try_emit_ready_segments` (src/audio_seg.rs:663-694), with
explicit fuel: every iteration removes the `next_emit_id` entry from the
pending map, so the map size bounds the iteration count. -/
def try_emit_loop (now : Nat) : Nat → SegmentEmitter → SegmentEmitter
  | 0, e => e
  | fuel + 1, e =>
    match mapLookup e.pending_commits e.next_emit_id with
    | none => e
    | some c =>
      if c.text = none ∧ c.reason ≠ CloseReason.asrClause ∧
          now - c.timestamp < e.config.asr_timeout_ms then e
      else try_emit_loop now fuel (emit_head e c)

namespace SegmentEmitter

/-- `SegmentEmitter::try_emit_ready_segments`; `now` is the time at
which `commit.timestamp.elapsed()` is read. -/
def try_emit_ready_segments (e : SegmentEmitter) (now : Nat) : SegmentEmitter :=
  try_emit_loop now e.pending_commits.length e

/-- `SegmentEmitter::process_boundary_event` (src/audio_seg.rs:633-650);
`now` is the commit's `Instant::now()` timestamp. -/
def process_boundary_event (e : SegmentEmitter) (event : BoundaryEvent)
    (seg_id now : Nat) : SegmentEmitter :=
  let fields :=
    match event with
    | .silenceClose start_idx end_idx =>
      (start_idx, end_idx, CloseReason.silence, (none : Option String))
    | .maxLenClose start_idx end_idx =>
      (start_idx, end_idx, CloseReason.maxLength, (none : Option String))
    | .asrClose start_idx end_idx text =>
      (start_idx, end_idx, CloseReason.asrClause, some text)
  let commit : SegmentCommit :=
    { id := seg_id, range_start := fields.1, range_end := fields.2.1,
      reason := fields.2.2.1, text := fields.2.2.2, timestamp := now }
  SegmentEmitter.try_emit_ready_segments
    { e with pending_commits := mapInsert e.pending_commits seg_id commit } now

/-- `SegmentEmitter::add_transcript` (src/audio_seg.rs:653-660). -/
def add_transcript (e : SegmentEmitter) (seg_id : Nat) (text : String) (now : Nat) :
    SegmentEmitter :=
  match mapLookup e.pending_commits seg_id with
  | some commit =>
    if commit.text = none then
      SegmentEmitter.try_emit_ready_segments
        { e with pending_commits :=
            mapInsert e.pending_commits seg_id { commit with text := some text } } now
    else e
  | none => e

/-- `SegmentEmitter::pop_segment` (src/audio_seg.rs:697-700). -/
def pop_segment (e : SegmentEmitter) (now : Nat) :
    SegmentEmitter × Option SegmentedTurn :=
  let e1 := e.try_emit_ready_segments now
  match e1.output_queue with
  | [] => (e1, none)
  | t :: rest => ({ e1 with output_queue := rest }, some t)

end SegmentEmitter

/-- Inputs to the emitter as the segmenter drives it: boundary events
with their assigned ids, late transcripts, and ring-buffer pushes. -/
inductive EmitterOp where
  | boundary (event : BoundaryEvent) (seg_id : Nat) (now : Nat)
  | transcript (seg_id : Nat) (text : String) (now : Nat)
  | push (samples : List Int)

def emitterStep (e : SegmentEmitter) : EmitterOp → SegmentEmitter
  | .boundary event seg_id now => e.process_boundary_event event seg_id now
  | .transcript seg_id text now => e.add_transcript seg_id text now
  | .push samples => { e with ring := (e.ring.push_frame samples).2 }

def runEmitter (cfg : SegConfig) (C : Nat) (ops : List EmitterOp) : SegmentEmitter :=
  ops.foldl emitterStep (SegmentEmitter.new cfg (AudioRingBuffer.new C))

/-- The ordering invariant of the emitter: emitted ids are strictly
increasing and all below `next_emit_id`. -/
def EmitterInv (e : SegmentEmitter) : Prop :=
  e.output_queue.Pairwise (fun s t => s.id < t.id) ∧
  ∀ t ∈ e.output_queue, t.id < e.next_emit_id

theorem emit_head_inv (e : SegmentEmitter) (c : SegmentCommit) (h : EmitterInv e) :
    EmitterInv (emit_head e c) := by
  obtain ⟨h1, h2⟩ := h
  unfold emit_head
  cases e.ring.get_range c.range_start c.range_end with
  | none =>
    refine ⟨h1, ?_⟩
    intro t ht
    exact Nat.lt_succ_of_lt (h2 t ht)
  | some pcm =>
    constructor
    · rw [List.pairwise_append]
      refine ⟨h1, List.pairwise_singleton _ _, ?_⟩
      intro s hs t ht
      rw [List.mem_singleton] at ht
      subst ht
      exact h2 s hs
    · intro t ht
      rcases List.mem_append.mp ht with hin | hin
      · exact Nat.lt_succ_of_lt (h2 t hin)
      · rw [List.mem_singleton] at hin
        subst hin
        exact Nat.lt_succ_self _
  
theorem try_emit_loop_inv (now : Nat) :
    ∀ (fuel : Nat) (e : SegmentEmitter), EmitterInv e → EmitterInv (try_emit_loop now fuel e) := by
  intro fuel
  induction fuel with
  | zero => intro e h; exact h
  | succ n ih =>
    intro e h
    unfold try_emit_loop
    split
    · exact h
    · split
      · exact h
      · exact ih _ (emit_head_inv _ _ h)

theorem emitterStep_inv (e : SegmentEmitter) (op : EmitterOp) (h : EmitterInv e) :
    EmitterInv (emitterStep e op) := by
  cases op with
  | boundary event seg_id now =>
    exact try_emit_loop_inv now _ _ h
  | transcript seg_id text now =>
    show EmitterInv (e.add_transcript seg_id text now)
    unfold SegmentEmitter.add_transcript
    split
    · split
      · exact try_emit_loop_inv now _ _ h
      · exact h
    · exact h
  | push samples => exact h

theorem runEmitter_inv (cfg : SegConfig) (C : Nat) (ops : List EmitterOp) :
    EmitterInv (runEmitter cfg C ops) := by
  have hnew : EmitterInv (SegmentEmitter.new cfg (AudioRingBuffer.new C)) :=
    ⟨List.Pairwise.nil, by intro t ht; cases ht⟩
  have : ∀ e, EmitterInv e → EmitterInv (ops.foldl emitterStep e) := by
    induction ops with
    | nil => intro e h; exact h
    | cons op rest ih => intro e h; exact ih _ (emitterStep_inv e op h)
  exact this _ hnew

theorem mapLookup_erase (m : List (Nat × SegmentCommit)) (k : Nat) :
    mapLookup (mapErase m k) k = none := by
  induction m with
  | nil => rfl
  | cons entry rest ih =>
    by_cases h : entry.1 = k
    · simpa [mapErase, mapLookup, h] using ih
    · simpa [mapErase, mapLookup, h] using ih

theorem try_emit_loop_mono (now : Nat) :
    ∀ (fuel : Nat) (e : SegmentEmitter),
      e.next_emit_id ≤ (try_emit_loop now fuel e).next_emit_id := by
  intro fuel
  induction fuel with
  | zero => intro e; exact Nat.le_refl _
  | succ n ih =>
    intro e
    unfold try_emit_loop
    split
    · exact Nat.le_refl _
    · split
      · exact Nat.le_refl _
      · next c _ _ =>
        refine Nat.le_trans ?_ (ih (emit_head e c))
        unfold emit_head
        cases e.ring.get_range c.range_start c.range_end <;>
          exact Nat.le_succ _

/-- **C6.**  First conjunct: over every operation sequence, the ids of
the `SegmentedTurn`s the emitter emits are strictly increasing and all
below `next_emit_id`.  Second conjunct: whenever the loop processes the
head commit (`emit_head`), `next_emit_id` advances past it, its entry
leaves the pending map, and the segment is either emitted (ring range
available, with exactly the assigned id) or skipped (range unavailable,
output unchanged) — so ids are gap-free relative to the assigned ids.
Third conjunct: the drain loop never decreases `next_emit_id`. -/
theorem c6_emitter_ordered_and_gap_free :
    (∀ (cfg : SegConfig) (C : Nat) (ops : List EmitterOp),
      (runEmitter cfg C ops).output_queue.Pairwise (fun s t => s.id < t.id) ∧
      ∀ t ∈ (runEmitter cfg C ops).output_queue,
        t.id < (runEmitter cfg C ops).next_emit_id) ∧
    (∀ (e : SegmentEmitter) (c : SegmentCommit),
      (emit_head e c).next_emit_id = e.next_emit_id + 1 ∧
      mapLookup (emit_head e c).pending_commits e.next_emit_id = none ∧
      (∀ pcm, e.ring.get_range c.range_start c.range_end = some pcm →
        (emit_head e c).output_queue = e.output_queue ++
          [{ id := e.next_emit_id, audio := pcm, close_reason := c.reason,
             text := c.text }]) ∧
      (e.ring.get_range c.range_start c.range_end = none →
        (emit_head e c).output_queue = e.output_queue)) ∧
    (∀ (now fuel : Nat) (e : SegmentEmitter),
      e.next_emit_id ≤ (try_emit_loop now fuel e).next_emit_id) := by
  refine ⟨runEmitter_inv, ?_, fun now fuel e => try_emit_loop_mono now fuel e⟩
  intro e c
  refine ⟨?_, ?_, ?_, ?_⟩
  · unfold emit_head
    cases e.ring.get_range c.range_start c.range_end <;> rfl
  · unfold emit_head
    cases e.ring.get_range c.range_start c.range_end <;>
      simpa using mapLookup_erase e.pending_commits e.next_emit_id
  · intro pcm hpcm
    unfold emit_head
    rw [hpcm]
  · intro hnone
    unfold emit_head
    rw [hnone]

def c6cfg : SegConfig := { SegConfig.default with asr_timeout_ms := 0 }

def c6ops : List EmitterOp := [.push [1, 2, 3], .boundary (.silenceClose 0 2) 1 0]

def c6emitter : SegmentEmitter := runEmitter c6cfg 10 [.push [1, 2, 3]]

def c6commit : SegmentCommit :=
  { id := 2, range_start := 0, range_end := 2, reason := CloseReason.silence,
    text := none, timestamp := 0 }

theorem c6_witness :
    (runEmitter c6cfg 10 c6ops).output_queue.Pairwise (fun s t => s.id < t.id) ∧
    ({ id := 1, audio := [1, 2], close_reason := CloseReason.silence, text := none } :
        SegmentedTurn).id < (runEmitter c6cfg 10 c6ops).next_emit_id ∧
    (emit_head c6emitter c6commit).next_emit_id = c6emitter.next_emit_id + 1 ∧
    (emit_head c6emitter c6commit).output_queue = c6emitter.output_queue ++
      [{ id := c6emitter.next_emit_id, audio := [1, 2], close_reason := c6commit.reason,
         text := c6commit.text }] :=
  ⟨(c6_emitter_ordered_and_gap_free.1 c6cfg 10 c6ops).1,
   (c6_emitter_ordered_and_gap_free.1 c6cfg 10 c6ops).2
     { id := 1, audio := [1, 2], close_reason := CloseReason.silence, text := none }
     (by decide),
   (c6_emitter_ordered_and_gap_free.2.1 c6emitter c6commit).1,
   (c6_emitter_ordered_and_gap_free.2.1 c6emitter c6commit).2.2.1 [1, 2] (by decide)⟩

end RhoLive
